import Mathlib

/-!
Verification development for the pitch-detection core of the
Music-Note-Detector-Flask repository (src/utils/note_detector.py,
src/utils/audio_processor.py, src/config.py).

Modelling conventions:
* Python floats are modelled by `ℝ`; `round(x, k)` is modelled exactly as
  rounding to `k` decimal digits over `ℝ`.  Python's `round` uses
  round-half-to-even while Mathlib's `round` is round-half-up; the two agree
  except on exact half-way ties, which none of the concrete inputs used in
  the theorems below hit.
* NumPy arrays become `List ℝ`.  `np.mean []` is NaN in NumPy; every use in
  the source is guarded so the `lmean [] = 0` convention below is never
  relied upon.
* Fallible code paths (Python exceptions: `ZeroDivisionError`, `ValueError`
  on empty arrays / zero range step) are modelled by `Option`, returning
  `none` exactly where the Python code raises.
* Third-party numerical routines that are not part of this repository
  (scipy's Butterworth filter + filtfilt, librosa.piptrack, parselmouth)
  are passed in as explicit function parameters of the embedded repository
  functions that call them.
-/

noncomputable section

open Real

/- ---------------------------------------------------------------------
Generic helpers for the embedding
--------------------------------------------------------------------- -/

/-- Python's `round(x, 1)`: one decimal digit (half-way convention as noted
in the file header). -/
def round1 (x : ℝ) : ℝ := ((round (10 * x) : ℤ) : ℝ) / 10

/-- Python's `round(x, 2)`: two decimal digits. -/
def round2 (x : ℝ) : ℝ := ((round (100 * x) : ℤ) : ℝ) / 100

/-- Python's `round(x, 3)`: three decimal digits. -/
def round3 (x : ℝ) : ℝ := ((round (1000 * x) : ℤ) : ℝ) / 1000

/-- Python's `int(x)` on a float: truncation toward zero. -/
def pyInt (x : ℝ) : ℤ := if x < 0 then ⌈x⌉ else ⌊x⌋

/-- Python's `int(x)` on an exact rational value. -/
def pyIntQ (x : ℚ) : ℤ := if x < 0 then ⌈x⌉ else ⌊x⌋

/-- `np.mean` of a list (callers in the source never pass an empty list,
see the file header). -/
def lmean (l : List ℝ) : ℝ := l.sum / l.length

/-- `np.std` of a list: population standard deviation. -/
def lstd (l : List ℝ) : ℝ :=
  Real.sqrt (((l.map (fun x => (x - lmean l) ^ 2)).sum) / l.length)

/-- `np.max(np.abs(l))`; on the (guarded-against) empty list this is `0`
rather than NumPy's ValueError. -/
def maxAbs (l : List ℝ) : ℝ := (l.map (fun x => |x|)).foldr max 0

/- ---------------------------------------------------------------------
src/utils/note_detector.py : constants and frequency_to_note
--------------------------------------------------------------------- -/

def A4_FREQUENCY : ℝ := 440

def NOTE_NAMES : List String :=
  ["C", "C#", "D", "D#", "E", "F"] ++ ["F#", "G", "G#", "A", "A#", "B"]

/-- The em dash `'—'` (U+2014) used as the no-pitch sentinel label in
note_detector.py (lines 38 and 241) and app.py. -/
def silentLabel : String := "—"

def emptyStr : String := ""

/-- The result-dictionary shape of the source: keys that are absent in some
branches (`cents`, `octave`, `note_name`, `midi_number`, `method`,
`energy`) are `Option` fields defaulting to `none`. -/
structure NoteInfo where
  note : String
  frequency : ℝ
  confidence : ℝ
  cents : Option ℝ := none
  octave : Option ℤ := none
  note_name : Option String := none
  midi_number : Option ℤ := none
  method : Option String := none
  energy : Option ℝ := none

/-- note_detector.py lines 25-70.  `int(round ...)` is Python's banker's
round on a float; modelled by Mathlib's `round` (see file header).  The
returned `cents` is rounded to 1 decimal and `confidence` to 2 decimals,
exactly as in the source.  Python's `//` and `%` on ints are `Int.fdiv`
and `Int.emod`. -/
def frequency_to_note (frequency : ℝ) : NoteInfo :=
  if frequency ≤ 0 then
    { note := silentLabel, frequency := 0, cents := some 0, octave := some 0,
      confidence := 0 }
  else
    let semitones_from_a4 := 12 * Real.logb 2 (frequency / A4_FREQUENCY)
    let nearest_note_index : ℤ := round semitones_from_a4
    let cents_deviation := (semitones_from_a4 - nearest_note_index) * 100
    let note_number : ℤ := nearest_note_index + 69
    let octave : ℤ := Int.fdiv note_number 12 - 1
    let note_index : ℕ := (Int.emod note_number 12).toNat
    let confidence := max 0 (1 - |cents_deviation| / 50)
    { note := NOTE_NAMES.getD note_index emptyStr ++ toString octave,
      note_name := some (NOTE_NAMES.getD note_index emptyStr),
      octave := some octave,
      frequency := frequency,
      cents := some (round1 cents_deviation),
      confidence := round2 confidence,
      midi_number := some note_number }

/- ---------------------------------------------------------------------
src/utils/note_detector.py lines 72-136 : autocorrelation_pitch
--------------------------------------------------------------------- -/

/-- `np.hanning n`: `0.5 - 0.5*cos(2πk/(n-1))` for `k = 0..n-1`, with
NumPy's special case `hanning 1 = [1]` (and `hanning 0 = []`). -/
def hanning (n : ℕ) : List ℝ :=
  if n = 1 then [1]
  else (List.range n).map
    (fun k : ℕ => 1 / 2 - 1 / 2 * Real.cos (2 * π * (k : ℝ) / ((n : ℝ) - 1)))

/-- `signal * np.hanning(len(signal))`. -/
def windowSig (s : List ℝ) : List ℝ := List.zipWith (fun a b => a * b) s (hanning s.length)

/-- `signal - np.mean(signal)`. -/
def centerSig (s : List ℝ) : List ℝ := s.map (fun x => x - lmean s)

/-- `if np.max(np.abs(s)) > 0: s = s / np.max(np.abs(s))`. -/
def normSig (s : List ℝ) : List ℝ :=
  if 0 < maxAbs s then s.map (fun x => x / maxAbs s) else s

/-- Lines 87-92: window, remove DC offset, peak-normalize. -/
def acPreproc (signal : List ℝ) : List ℝ := normSig (centerSig (windowSig signal))

/-- Lines 95-96: the non-negative-lag half of `np.correlate(s, s, 'full')`:
entry `τ` is `Σ_{j} s[j] * s[j+τ]`. -/
def autocorrOf (s : List ℝ) : List ℝ :=
  (List.range s.length).map (fun t =>
    ((List.range (s.length - t)).map (fun j => s.getD j 0 * s.getD (j + t) 0)).sum)

/-- Line 103, `corr[:m] = 0`: zero out the first `m` entries. -/
def zeroFirst (l : List ℝ) (m : ℕ) : List ℝ :=
  (l.take m).map (fun _ => (0 : ℝ)) ++ l.drop m

/-- Python indexing `l[i]` for `i ≥ -1`: index `-1` wraps to the last
element (reached by `corr[i-1]` when `i = 0`). -/
def pyNbr (l : List ℝ) (i : ℤ) : ℝ :=
  if i < 0 then l.getD (l.length - 1) 0 else l.getD i.toNat 0

/-- Line 99, `min_period = int(sr / fmax)` (non-negative for `fmax > 0`). -/
def acMinPeriod (sr : ℕ) (fmax : ℝ) : ℕ := (pyInt ((sr : ℝ) / fmax)).toNat

/-- Line 100, `max_period = int(sr / fmin)`. -/
def acMaxPeriod (sr : ℕ) (fmin : ℝ) : ℤ := pyInt ((sr : ℝ) / fmin)

/-- The autocorrelation of the preprocessed signal (line 95-96). -/
def acCorr (signal : List ℝ) : List ℝ := autocorrOf (acPreproc signal)

/-- The mutated array after line 103 (`corr[:min_period] = 0`); all later
reads of `corr` in the source read this array. -/
def acCorrZ (signal : List ℝ) (sr : ℕ) (fmax : ℝ) : List ℝ :=
  zeroFirst (acCorr signal) (acMinPeriod sr fmax)

/-- Lines 106-109: indices `i ∈ [min_period, min(max_period, len(corr)-1))`
with `corr[i] > corr[i-1]` and `corr[i] > corr[i+1]` (on the zeroed array;
`corr[i-1]` wraps per Python when `i = 0`). -/
def acPeaks (signal : List ℝ) (sr : ℕ) (fmin fmax : ℝ) : List ℕ :=
  (List.range (acCorr signal).length).filter (fun i =>
    decide (acMinPeriod sr fmax ≤ i) &&
    decide ((i : ℤ) < min (acMaxPeriod sr fmin) ((acCorr signal).length - 1)) &&
    decide (pyNbr (acCorrZ signal sr fmax) ((i : ℤ) - 1) < (acCorrZ signal sr fmax).getD i 0) &&
    decide ((acCorrZ signal sr fmax).getD (i + 1) 0 < (acCorrZ signal sr fmax).getD i 0))

/-- Left-to-right scan keeping the current best index, replacing it only
on a strictly larger value. -/
def pickGo (vals : List ℝ) : ℕ → List ℕ → ℕ
  | b, [] => b
  | b, i :: t => if vals.getD b 0 < vals.getD i 0 then pickGo vals i t
                 else pickGo vals b t

/-- Lines 115-118: `peaks.sort(key=value, reverse=True)` is stable, so
`peaks[0]` is the earliest index attaining the maximal correlation value;
a left-to-right scan that replaces the best only on a strictly larger
value computes it. -/
def pickFirstMaxIdx (vals : List ℝ) : List ℕ → Option ℕ
  | [] => none
  | i :: t => some (pickGo vals i t)

/-- The selected peak index (`best_period` before refinement). -/
def acBest (signal : List ℝ) (sr : ℕ) (fmin fmax : ℝ) : Option ℕ :=
  pickFirstMaxIdx (acCorrZ signal sr fmax) (acPeaks signal sr fmin fmax)

/-- Lines 120-131: parabolic refinement of the selected integer lag `j`
(of an array of length `n`), applied only when `0 < j < n-1` and the
fitted curvature `a` is negative. -/
def acRefine (corrZ : List ℝ) (n : ℕ) (j : ℕ) : ℝ :=
  if 0 < j ∧ j + 1 < n then
    if (corrZ.getD (j - 1) 0 - 2 * corrZ.getD j 0 + corrZ.getD (j + 1) 0) / 2 < 0 then
      (j : ℝ) + (-((corrZ.getD (j + 1) 0 - corrZ.getD (j - 1) 0) / 2) /
        (2 * ((corrZ.getD (j - 1) 0 - 2 * corrZ.getD j 0 + corrZ.getD (j + 1) 0) / 2)))
    else (j : ℝ)
  else (j : ℝ)

/-- note_detector.py lines 72-136.  `none` models a Python exception:
an empty signal (`np.max` of an empty array raises ValueError),
`fmin = 0` or `fmax = 0` (ZeroDivisionError at lines 99-100; negative
bounds, which the repository never passes, are also mapped to `none`
rather than modelling Python negative-slice semantics), and selection of
the zero lag (`sr / 0` at line 133 raises ZeroDivisionError). -/
def autocorrelation_pitch (signal : List ℝ) (sr : ℕ) (fmin fmax : ℝ) :
    Option (ℝ × ℝ) :=
  if signal = [] then none
  else if fmin ≤ 0 ∨ fmax ≤ 0 then none
  else
    match acBest signal sr fmin fmax with
    | none => some (0, 0)
    | some j =>
      if j = 0 then none
      else
        some ((sr : ℝ) / acRefine (acCorrZ signal sr fmax) (acCorr signal).length j,
              min 1 ((acCorrZ signal sr fmax).getD j 0))

/- ---------------------------------------------------------------------
src/utils/note_detector.py lines 138-183 : harmonic_product_spectrum
--------------------------------------------------------------------- -/

/-- Real part of `np.fft.rfft w` at bin `k` (up to sign conventions that do
not affect the magnitude). -/
def rfftRe (w : List ℝ) (k : ℕ) : ℝ :=
  ((List.range w.length).map (fun j => w.getD j 0 * Real.cos (2 * π * j * k / w.length))).sum

/-- Imaginary-part magnitude contribution of `np.fft.rfft w` at bin `k`. -/
def rfftIm (w : List ℝ) (k : ℕ) : ℝ :=
  ((List.range w.length).map (fun j => w.getD j 0 * Real.sin (2 * π * j * k / w.length))).sum

/-- Line 155-156: `np.abs(np.fft.rfft windowed)`, bins `k = 0 .. n/2`. -/
def rfftMag (w : List ℝ) : List ℝ :=
  (List.range (w.length / 2 + 1)).map (fun k => Real.sqrt (rfftRe w k ^ 2 + rfftIm w k ^ 2))

/-- Lines 159-163: the harmonic product spectrum.  For harmonic `h ∈
[2, n_harmonics]` the decimated spectrum `mag[::h]` (length `⌈L/h⌉`)
multiplies the prefix of the accumulator, so entry `k` is multiplied by
`mag[h*k]` exactly when `h*k < L`. -/
def hpsOf (mag : List ℝ) (n_harmonics : ℕ) : List ℝ :=
  (List.range mag.length).map (fun k =>
    mag.getD k 0 *
    ((List.range (n_harmonics - 1)).map (fun h =>
      if (h + 2) * k < mag.length then mag.getD ((h + 2) * k) 0 else 1)).prod)

/-- Line 167: `np.fft.rfftfreq(n, 1/sr)[k] = k * sr / n`. -/
def freqBin (sr n k : ℕ) : ℝ := ((k : ℝ) * sr) / n

/-- `np.argmax`: index of the first occurrence of the maximum. -/
def argmaxFirstAux : List ℝ → ℕ → ℕ → ℝ → ℕ
  | [], _, bi, _ => bi
  | x :: xs, i, bi, bv => if bv < x then argmaxFirstAux xs (i + 1) i x
                          else argmaxFirstAux xs (i + 1) bi bv

/-- `np.argmax` over a list; `none` for the empty list (NumPy raises). -/
def argmaxFirst : List ℝ → Option ℕ
  | [] => none
  | x :: xs => some (argmaxFirstAux xs 1 0 x)

/-- Line 178: `np.mean(hps[max(0, pb-10):pb+10])`, the denominator of the
peak-prominence ratio. -/
def hpsWindowMean (hps : List ℝ) (pb : ℕ) : ℝ :=
  lmean ((hps.drop (pb - 10)).take ((pb + 10) - (pb - 10)))

/-- note_detector.py lines 138-183.  `none` models a raised exception: an
empty signal (rfft raises) or an empty search slice (`np.argmax` raises).
In the prominence branch, when the window mean is `0` the source divides
by it unguarded: NumPy produces NaN (or +inf) and Python's
`min(1.0, NaN)` returns its first argument `1.0`, so that branch is
modelled by the exact value `1`. -/
def harmonic_product_spectrum (signal : List ℝ) (sr : ℕ) (n_harmonics : ℕ) :
    Option (ℝ × ℝ) :=
  if signal = [] then none
  else
    let w := windowSig signal
    let hps := hpsOf (rfftMag w) n_harmonics
    let L := hps.length
    let n := signal.length
    let min_bin := ((List.range L).find? (fun k => decide ((80 : ℝ) ≤ freqBin sr n k))).getD 0
    let max_bin := (((List.range L).reverse).find? (fun k => decide (freqBin sr n k ≤ 2000))).getD (L - 1)
    match argmaxFirst ((hps.drop min_bin).take (max_bin - min_bin)) with
    | none => none
    | some a =>
      let peak_bin := a + min_bin
      let confidence :=
        if 0 < peak_bin ∧ peak_bin + 1 < L then
          let m := hpsWindowMean hps peak_bin
          if m = 0 then 1 else min 1 ((hps.getD peak_bin 0 / m) / 10)
        else 0
      some (freqBin sr n peak_bin, confidence)

/- ---------------------------------------------------------------------
src/utils/note_detector.py lines 185-222 : detect_pitch_advanced
--------------------------------------------------------------------- -/

def methodCombined : String := "combined"

/-- Lines 203-215: confidence-weighted fusion of the two estimates. -/
def fusePitch (p1 p2 : ℝ × ℝ) : ℝ × ℝ :=
  if 0 < p1.2 ∧ 0 < p2.2 then
    ((p1.1 * p1.2 + p2.1 * p2.2) / (p1.2 + p2.2), (p1.2 + p2.2) / 2)
  else if 0 < p1.2 then p1
  else if 0 < p2.2 then p2
  else (0, 0)

/-- note_detector.py lines 185-222: run both estimators (with their default
bounds 80 and 2000, and 5 harmonics), fuse, map through
`frequency_to_note`, overwrite `confidence` with the fused confidence
rounded to 2 decimals, and tag `method = "combined"`.  An exception in
either estimator propagates (`none`). -/
def detect_pitch_advanced (signal : List ℝ) (sr : ℕ) : Option NoteInfo :=
  match autocorrelation_pitch signal sr 80 2000 with
  | none => none
  | some p1 =>
    match harmonic_product_spectrum signal sr 5 with
    | none => none
    | some p2 =>
      let fc := fusePitch p1 p2
      some { frequency_to_note fc.1 with
               confidence := round2 fc.2
               method := some methodCombined }

/- ---------------------------------------------------------------------
src/utils/note_detector.py lines 224-269 : analyze_note_stability
--------------------------------------------------------------------- -/

/-- The result-dictionary shape of `analyze_note_stability`; the keys
absent in the empty/all-silent branch are `Option` fields. -/
structure StabilityInfo where
  stable : Bool
  dominant_note : Option String
  stability_score : ℝ
  dominance_ratio : Option ℝ := none
  note_distribution : Option (List (String × ℕ)) := none

/-- One `note_counts[note] = note_counts.get(note, 0) + 1` step on an
insertion-ordered association list (the Python dict preserves insertion
order and updates in place). -/
def bump : List (String × ℕ) → String → List (String × ℕ)
  | [], s => [(s, 1)]
  | (k, v) :: t, s => if k = s then (k, v + 1) :: t else (k, v) :: bump t s

/-- Lines 239-242: occurrence counts of the non-silent labels, in
first-encounter order. -/
def buildCounts (notes : List String) : List (String × ℕ) :=
  notes.foldl (fun cs n => if n = silentLabel then cs else bump cs n) []

/-- Left-to-right scan keeping the current best entry, replacing it only
on a strictly larger count. -/
def pickEntryGo : (String × ℕ) → List (String × ℕ) → (String × ℕ)
  | b, [] => b
  | b, e :: t => if b.2 < e.2 then pickEntryGo e t else pickEntryGo b t

/-- Line 248: `max(note_counts, key=note_counts.get)` iterates the dict in
insertion order and keeps the first key attaining the maximal count. -/
def pickFirstMaxEntry : List (String × ℕ) → Option (String × ℕ)
  | [] => none
  | e :: t => some (pickEntryGo e t)

/-- Lines 252-255: the frequencies paired with the dominant label that are
strictly positive. -/
def dominantFreqs (notes : List String) (freqs : List ℝ) (d : String) : List ℝ :=
  ((notes.zip freqs).filter
    (fun p => decide (p.1 = d) && decide ((0 : ℝ) < p.2))).map Prod.snd

/-- Lines 257-261: the (unrounded) stability score for dominant label `d`
with count `c`: `0` when no positive dominant frequency exists, else
`dominanceRatio * (1 - min(std/mean, 1))`. -/
def stabScore (notes : List String) (freqs : List ℝ) (d : String) (c : ℕ) : ℝ :=
  if dominantFreqs notes freqs d = [] then 0
  else ((c : ℝ) / notes.length) *
    (1 - min (lstd (dominantFreqs notes freqs d) / lmean (dominantFreqs notes freqs d)) 1)

/-- note_detector.py lines 224-269.  `stable` compares the unrounded
score with 0.7 (line 264) while the returned `stability_score` and
`dominance_ratio` are rounded (lines 266-267), exactly as in the source. -/
def analyze_note_stability (note_history : List String)
    (frequency_history : List ℝ) : StabilityInfo :=
  if note_history = [] then
    { stable := false, dominant_note := none, stability_score := 0 }
  else
    match pickFirstMaxEntry (buildCounts note_history) with
    | none => { stable := false, dominant_note := none, stability_score := 0 }
    | some dc =>
      { stable := decide ((0.7 : ℝ) <
          stabScore note_history frequency_history dc.1 dc.2),
        dominant_note := some dc.1,
        stability_score := round2 (stabScore note_history frequency_history dc.1 dc.2),
        dominance_ratio := some (round2 ((dc.2 : ℝ) / note_history.length)),
        note_distribution := some (buildCounts note_history) }

/- ---------------------------------------------------------------------
src/config.py lines 19-26
--------------------------------------------------------------------- -/

def SAMPLE_RATE : ℕ := 22050

def HOP_LENGTH_QUICK : ℚ := 1

def HOP_LENGTH_STANDARD : ℚ := 1 / 4

/-- The Python literal `0.1` is the binary64 double nearest to 1/10; its
exact value is `3602879701896397 / 2^55`. -/
def HOP_LENGTH_ADVANCED : ℚ := 3602879701896397 / 36028797018963968

def MIN_FREQUENCY : ℕ := 80

def MAX_FREQUENCY : ℕ := 2000

/- ---------------------------------------------------------------------
src/utils/audio_processor.py : AudioProcessor
--------------------------------------------------------------------- -/

def modeQuick : String := "quick"

def modeStandard : String := "standard"

def modeAdvanced : String := "advanced"

def methodLibrosa : String := "librosa"

def methodParselmouth : String := "parselmouth"

/-- The corrupted no-pitch label on audio_processor.py line 198: the file
holds the bytes C3 A2 E2 82 AC E2 80 9D, i.e. the three characters
U+00E2, U+20AC, U+201D ("â€”", a mojibake double-encoding of the em dash),
not the em dash U+2014 used by note_detector.py. -/
def mojibakeLabel : String := "â€”"

/-- audio_processor.py lines 71-97.  The scipy 5th-order Butterworth
high-pass + `filtfilt` step (third-party code, not in this repository) is
the parameter `butter`; it is applied exactly when `low_cutoff =
50/(sr/2) = 100/sr < 1`, i.e. when `100 < sr` (for `sr = 0` the source
raises ZeroDivisionError, guarded by `analyze_segment` below). -/
def preprocess_audio (butter : ℕ → List ℝ → List ℝ) (y : List ℝ) (sr : ℕ) :
    List ℝ :=
  let y1 := centerSig y
  let y2 := if 100 < sr then butter sr y1 else y1
  normSig y2

/-- Line 195: `np.sqrt(np.mean(y_processed ** 2))`. -/
def rmsOf (l : List ℝ) : ℝ := Real.sqrt (lmean (l.map (fun x => x ^ 2)))

/-- audio_processor.py lines 179-222.  `quickEst` and `stdEst` stand for
the third-party estimator wrappers `detect_pitch_librosa` (librosa
piptrack) and `detect_pitch_parselmouth` (Praat), modelled as total
(frequency, confidence) functions of the preprocessed segment and sample
rate.  `none` models a raised exception: an empty segment (`np.max` of an
empty array) or `sr = 0` (ZeroDivisionError computing the filter cutoff),
or a propagated exception from `detect_pitch_advanced`. -/
def analyze_segment (butter : ℕ → List ℝ → List ℝ)
    (quickEst stdEst : List ℝ → ℕ → ℝ × ℝ)
    (y : List ℝ) (sr : ℕ) (method : String) : Option NoteInfo :=
  if y = [] ∨ sr = 0 then none
  else
    let y_processed := preprocess_audio butter y sr
    let energy := rmsOf y_processed
    if energy < 0.01 then
      some { note := mojibakeLabel
             frequency := 0
             confidence := 0
             method := some method
             energy := some energy }
    else
      let base : Option NoteInfo :=
        if method = modeQuick then
          let fc := quickEst y_processed sr
          some { frequency_to_note fc.1 with
                   confidence := fc.2
                   method := some methodLibrosa }
        else if method = modeStandard then
          let fc := stdEst y_processed sr
          some { frequency_to_note fc.1 with
                   confidence := fc.2
                   method := some methodParselmouth }
        else detect_pitch_advanced y_processed sr
      base.map (fun r => { r with energy := some (round3 energy) })

/-- audio_processor.py lines 240-246: `hop_length = int(sr * seconds)`.
The products for the quick (1.0) and standard (0.25) table entries are
exactly representable in binary64 (for any realistic `sr`), and for the
advanced entry the binary64 product rounds to a value with the same
integer truncation, so the exact rational product models the double
computation faithfully. -/
def hopLength (sr : ℕ) (mode : String) : ℕ :=
  if mode = modeQuick then (pyIntQ ((sr : ℚ) * HOP_LENGTH_QUICK)).toNat
  else if mode = modeStandard then (pyIntQ ((sr : ℚ) * HOP_LENGTH_STANDARD)).toNat
  else (pyIntQ ((sr : ℚ) * HOP_LENGTH_ADVANCED)).toNat

/-- Python `range(0, stop, step)` for `step ≥ 1`: the `k*step` below
`stop`. -/
def pyRange0 (stop : ℤ) (step : ℕ) : List ℕ :=
  (List.range (((max stop 0).toNat + step - 1) / step)).map (fun k => k * step)

/-- Line 250: `total_segments = (len(y) - hop_length) // hop_length + 1`
(Python floor division on ints). -/
def totalSegments (L h : ℕ) : ℤ := ((L : ℤ) - h).fdiv h + 1

/-- audio_processor.py lines 224-271, entered after the external
`load_audio` decoding step: slices `y` with `range(0, len(y) -
hop_length, hop_length)`, analyzes each slice, attaches `time = start /
sr`, and reports `(i+1) / total_segments` after each segment.  The
returned pair is (result records with times, the sequence of progress
values passed to the callback); `metadata` and the formatted timestamp
string are not modelled (no claim concerns them).  `none` models a raised
exception: a zero hop length (`range` with step 0 raises ValueError) or a
propagated exception from `analyze_segment`. -/
def analyze_file (butter : ℕ → List ℝ → List ℝ)
    (quickEst stdEst : List ℝ → ℕ → ℝ × ℝ)
    (y : List ℝ) (sr : ℕ) (mode : String) :
    Option (List (NoteInfo × ℝ) × List ℚ) :=
  let hop := hopLength sr mode
  if hop = 0 then none
  else
    let starts := pyRange0 ((y.length : ℤ) - hop) hop
    let prog := (List.range starts.length).map
      (fun i : ℕ => ((i : ℚ) + 1) / (totalSegments y.length hop : ℚ))
    (starts.mapM (fun s =>
      (analyze_segment butter quickEst stdEst ((y.drop s).take hop) sr mode).map
        (fun r => (r, (s : ℝ) / sr)))).map (fun recs => (recs, prog))

/-- The identity in place of the scipy filter, for concrete evaluations
(the concrete inputs below never reach the filter branch). -/
def idFilter : ℕ → List ℝ → List ℝ := fun _ l => l

/-- A constant (0, 0) estimate in place of the third-party estimators, for
concrete evaluations (the concrete inputs below never reach them). -/
def zeroEst : List ℝ → ℕ → ℝ × ℝ := fun _ _ => (0, 0)

/- ---------------------------------------------------------------------
Claim C3 : hop-length table
--------------------------------------------------------------------- -/

theorem pyIntQ_of_nonneg {x : ℚ} (h : 0 ≤ x) : pyIntQ x = ⌊x⌋ := by
  simp [pyIntQ, not_lt.mpr h]

/-- Claim C3 counterexample: at sample rate 8003 in standard mode the code
computes `int(8003 * 0.25) = 2000`, while the claimed
`round(8003 * 0.25) = round(2000.75) = 2001`. -/
theorem C3_counterexample :
    hopLength 8003 modeStandard = 2000 ∧
    round ((8003 : ℚ) * HOP_LENGTH_STANDARD) = 2001 ∧ (2000 : ℤ) ≠ 2001 := by
  refine ⟨?_, ?_, by decide⟩
  · have hne : modeStandard ≠ modeQuick := by decide
    have hx : ((8003 : ℕ) : ℚ) * HOP_LENGTH_STANDARD = ((8003 : ℤ) : ℚ) / ((4 : ℕ) : ℚ) := by
      norm_num [HOP_LENGTH_STANDARD]
    rw [hopLength, if_neg hne, if_pos rfl,
      pyIntQ_of_nonneg (by simp only [HOP_LENGTH_STANDARD]; positivity), hx,
      Rat.floor_intCast_div_natCast]
    decide
  · have hx : (8003 : ℚ) * HOP_LENGTH_STANDARD + 1 / 2 = ((8005 : ℤ) : ℚ) / ((4 : ℕ) : ℚ) := by
      norm_num [HOP_LENGTH_STANDARD]
    rw [round_eq, hx, Rat.floor_intCast_div_natCast]
    decide

/-- Claim C3 (amended): the hop length is `int(sr * seconds)`, i.e. the
product truncated toward zero (equivalently floored, the product being
non-negative), not rounded to nearest; in particular quick mode gives
exactly `sr` and standard mode gives `sr / 4` (natural division). -/
theorem C3_amended (sr : ℕ) :
    hopLength sr modeQuick = sr ∧
    hopLength sr modeStandard = sr / 4 ∧
    (hopLength sr modeStandard : ℤ) = ⌊(sr : ℚ) * HOP_LENGTH_STANDARD⌋ ∧
    (hopLength sr modeAdvanced : ℤ) = ⌊(sr : ℚ) * HOP_LENGTH_ADVANCED⌋ := by
  have hsq : modeStandard ≠ modeQuick := by decide
  have haq : modeAdvanced ≠ modeQuick := by decide
  have has : modeAdvanced ≠ modeStandard := by decide
  have hx : (sr : ℚ) * HOP_LENGTH_STANDARD = ((sr : ℤ) : ℚ) / ((4 : ℕ) : ℚ) := by
    push_cast [HOP_LENGTH_STANDARD]; ring
  have hstd : hopLength sr modeStandard = sr / 4 := by
    rw [hopLength, if_neg hsq, if_pos rfl,
      pyIntQ_of_nonneg (by simp only [HOP_LENGTH_STANDARD]; positivity), hx,
      Rat.floor_intCast_div_natCast]
    rw [← Int.natCast_div, Int.toNat_natCast]
  refine ⟨?_, hstd, ?_, ?_⟩
  · rw [hopLength, if_pos rfl,
      pyIntQ_of_nonneg (by simp only [HOP_LENGTH_QUICK]; positivity)]
    simp [HOP_LENGTH_QUICK]
  · rw [hstd, hx, Rat.floor_intCast_div_natCast, ← Int.natCast_div]
  · rw [hopLength, if_neg haq, if_neg has,
      pyIntQ_of_nonneg (by simp only [HOP_LENGTH_ADVANCED]; positivity)]
    exact Int.toNat_of_nonneg (Int.floor_nonneg.mpr
      (by simp only [HOP_LENGTH_ADVANCED]; positivity))

/- ---------------------------------------------------------------------
Claims C1, C2 : segment slicing and progress reporting in analyze_file
--------------------------------------------------------------------- -/

theorem lmean_zero_pair : lmean [(0 : ℝ), 0] = 0 := by
  norm_num [lmean]

theorem preprocess_zero_pair (sr : ℕ) (h1 : ¬ 100 < sr) :
    preprocess_audio idFilter [(0 : ℝ), 0] sr = [0, 0] := by
  simp [preprocess_audio, centerSig, normSig, maxAbs, lmean, if_neg h1]

theorem rms_zero_pair : rmsOf [(0 : ℝ), 0] = 0 := by
  norm_num [rmsOf, lmean, Real.sqrt_zero]

/-- The energy gate fires on a two-sample all-zero segment whenever the
sample rate skips the (abstracted) filter branch. -/
theorem analyze_segment_zero_pair (sr : ℕ) (h0 : sr ≠ 0) (h1 : ¬ 100 < sr)
    (mode : String) :
    analyze_segment idFilter zeroEst zeroEst [(0 : ℝ), 0] sr mode =
      some { note := mojibakeLabel, frequency := 0, confidence := 0,
             method := some mode, energy := some 0 } := by
  rw [analyze_segment, if_neg (by simp [h0])]
  simp only [preprocess_zero_pair sr h1, rms_zero_pair]
  rw [if_pos (by norm_num)]

theorem hopLength_8_standard : hopLength 8 modeStandard = 2 := by
  have hne : modeStandard ≠ modeQuick := by decide
  have hx : ((8 : ℕ) : ℚ) * HOP_LENGTH_STANDARD = ((2 : ℤ) : ℚ) := by
    norm_num [HOP_LENGTH_STANDARD]
  rw [hopLength, if_neg hne, if_pos rfl,
    pyIntQ_of_nonneg (by simp only [HOP_LENGTH_STANDARD]; positivity), hx,
    Int.floor_intCast]
  decide

/-- Full run of `analyze_file` on a 4-sample waveform at `sr = 8` in
standard mode (hop length 2): the loop analyzes only the slice starting
at 0 — the slice `[2, 4)`, although a full hop, is dropped — and the
single progress value reported is `1/2`. -/
theorem analyze_file_run_4_8 :
    analyze_file idFilter zeroEst zeroEst (List.replicate 4 (0 : ℝ)) 8 modeStandard =
      some ([({ note := mojibakeLabel, frequency := 0, confidence := 0,
                method := some modeStandard, energy := some 0 }, 0)], [1 / 2]) := by
  rw [analyze_file, hopLength_8_standard, if_neg (by decide)]
  have hlen : (List.replicate 4 (0 : ℝ)).length = 4 := by simp
  have hstarts : pyRange0 (((4 : ℕ) : ℤ) - ((2 : ℕ) : ℤ)) 2 = [0] := by decide
  have htot : totalSegments 4 2 = 2 := by decide
  have hseg : ((List.replicate 4 (0 : ℝ)).drop 0).take 2 = [(0 : ℝ), 0] := by
    simp [List.replicate]
  simp only [hlen, hstarts, htot, List.length_singleton,
    List.map_cons, List.map_nil, List.mapM_cons, List.mapM_nil, hseg,
    analyze_segment_zero_pair 8 (by decide) (by decide)]
  simp only [Option.pure_def, Option.bind_eq_bind, Option.some_bind, Option.map_some',
    Option.some.injEq, Prod.mk.injEq, List.cons.injEq, and_true, true_and]
  constructor
  · norm_num
  · norm_num [List.range_succ]

/-- Claim C1: refuted by the code.  For `L = 4`, `h = 2` (sr 8, standard
mode) the claim's invocation count is `floor((L-h)/h) + 1 = 2` with final
value 1.0, but the loop `range(0, len(y) - hop, hop)` stops before the
start index `L - h`, so the callback is invoked exactly once, with value
`1/2`, and the progress sequence never reaches 1.0. -/
theorem C1_code_eval :
    (analyze_file idFilter zeroEst zeroEst (List.replicate 4 (0 : ℝ)) 8 modeStandard).map
      Prod.snd = some [1 / 2] ∧
    totalSegments 4 (hopLength 8 modeStandard) = 2 ∧
    ([(1 : ℚ) / 2].length ≠ 2 ∧ ((1 : ℚ) / 2) ≠ 1) := by
  refine ⟨?_, ?_, by decide, by norm_num⟩
  · rw [analyze_file_run_4_8]; rfl
  · rw [hopLength_8_standard]; decide

/-- Claim C2: refuted by the code.  For the same input the claim's segment
count is `floor((4-2)/2) + 1 = 2`, but the loop analyzes exactly one
segment: the full-hop trailing slice `[2, 4)` is dropped. -/
theorem C2_code_eval :
    (analyze_file idFilter zeroEst zeroEst (List.replicate 4 (0 : ℝ)) 8 modeStandard).map
      (fun p => p.1.length) = some 1 ∧
    totalSegments 4 (hopLength 8 modeStandard) = 2 ∧ (1 : ℕ) ≠ 2 := by
  refine ⟨?_, ?_, by decide⟩
  · rw [analyze_file_run_4_8]; rfl
  · rw [hopLength_8_standard]; decide

/- ---------------------------------------------------------------------
Claim C4 : the energy gate's sentinel label
--------------------------------------------------------------------- -/

/-- Claim C4: on a gated (silent) segment every field matches the claim
except the note label: the gate returns the mojibake string of
audio_processor.py line 198 while `frequency_to_note 0` — the sentinel
the claim, the spec, and the silence filter of `analyze_note_stability`
use — returns the em dash; the two labels differ. -/
theorem C4_code_eval :
    analyze_segment idFilter zeroEst zeroEst [(0 : ℝ), 0] 50 modeStandard =
      some { note := mojibakeLabel, frequency := 0, confidence := 0,
             method := some modeStandard, energy := some 0 } ∧
    (frequency_to_note 0).note = silentLabel ∧ mojibakeLabel ≠ silentLabel := by
  refine ⟨analyze_segment_zero_pair 50 (by decide) (by decide) modeStandard, ?_, by decide⟩
  simp [frequency_to_note]

/- ---------------------------------------------------------------------
Claim C5 : the note mapper
--------------------------------------------------------------------- -/

/-- Closed form of `frequency_to_note` on positive frequencies. -/
theorem frequency_to_note_eq (f : ℝ) (h : 0 < f) :
    frequency_to_note f =
      { note := NOTE_NAMES.getD (Int.emod (round (12 * Real.logb 2 (f / 440)) + 69) 12).toNat emptyStr
                ++ toString (Int.fdiv (round (12 * Real.logb 2 (f / 440)) + 69) 12 - 1),
        note_name := some (NOTE_NAMES.getD (Int.emod (round (12 * Real.logb 2 (f / 440)) + 69) 12).toNat emptyStr),
        octave := some (Int.fdiv (round (12 * Real.logb 2 (f / 440)) + 69) 12 - 1),
        frequency := f,
        cents := some (round1 ((12 * Real.logb 2 (f / 440) - round (12 * Real.logb 2 (f / 440))) * 100)),
        confidence := round2 (max 0 (1 - |(12 * Real.logb 2 (f / 440) - round (12 * Real.logb 2 (f / 440))) * 100| / 50)),
        midi_number := some (round (12 * Real.logb 2 (f / 440)) + 69) } := by
  rw [frequency_to_note, if_neg (not_le.mpr h)]
  simp only [A4_FREQUENCY]

/-- Claim C5 (amended): for `f ≤ 0` the sentinel record; for `f > 0`, with
`x = 12*log2(f/440)` and `n = round x`: the returned midi number is
`n + 69` (equal to `round(69 + x)`), octave is `midi // 12 - 1`, the note
name is the chromatic table entry at `midi mod 12`, the returned `cents`
field is the deviation `(x - n)*100` ROUNDED TO 1 DECIMAL, the unrounded
deviation satisfies `|cents| ≤ 50`, and the returned confidence is
`max 0 (1 - |cents|/50)` (of the unrounded deviation) ROUNDED TO 2
DECIMALS. -/
theorem C5_amended (f : ℝ) :
    (f ≤ 0 → frequency_to_note f =
      { note := silentLabel, frequency := 0, cents := some 0, octave := some 0,
        confidence := 0 }) ∧
    (0 < f →
      (frequency_to_note f).midi_number =
        some (round (12 * Real.logb 2 (f / 440)) + 69) ∧
      round (12 * Real.logb 2 (f / 440)) + 69 =
        round (69 + 12 * Real.logb 2 (f / 440)) ∧
      (frequency_to_note f).octave =
        some (Int.fdiv (round (12 * Real.logb 2 (f / 440)) + 69) 12 - 1) ∧
      (frequency_to_note f).note_name =
        some (NOTE_NAMES.getD
          (Int.emod (round (12 * Real.logb 2 (f / 440)) + 69) 12).toNat emptyStr) ∧
      (frequency_to_note f).cents =
        some (round1 ((12 * Real.logb 2 (f / 440) -
          round (12 * Real.logb 2 (f / 440))) * 100)) ∧
      |(12 * Real.logb 2 (f / 440) - round (12 * Real.logb 2 (f / 440))) * 100| ≤ 50 ∧
      (frequency_to_note f).confidence =
        round2 (max 0 (1 - |(12 * Real.logb 2 (f / 440) -
          round (12 * Real.logb 2 (f / 440))) * 100| / 50)) ∧
      (frequency_to_note f).frequency = f) := by
  constructor
  · intro h
    rw [frequency_to_note, if_pos h]
  · intro h
    rw [frequency_to_note_eq f h]
    refine ⟨rfl, ?_, rfl, rfl, rfl, ?_, rfl, rfl⟩
    · rw [show (69 : ℝ) + 12 * Real.logb 2 (f / 440) =
            12 * Real.logb 2 (f / 440) + ((69 : ℤ) : ℝ) by push_cast; ring,
        round_add_int]
    · have h1 : |12 * Real.logb 2 (f / 440) - round (12 * Real.logb 2 (f / 440))| ≤ 1 / 2 :=
        abs_sub_round _
      calc |(12 * Real.logb 2 (f / 440) - round (12 * Real.logb 2 (f / 440))) * 100|
          = |12 * Real.logb 2 (f / 440) - round (12 * Real.logb 2 (f / 440))| * 100 := by
            rw [abs_mul]; norm_num
        _ ≤ 1 / 2 * 100 := by nlinarith
        _ = 50 := by norm_num

/-- Claim C5 witness: the amended statement applied at `f = 440`. -/
theorem C5_witness :
    (0 : ℝ) < 440 ∧ (frequency_to_note 440).midi_number = some 69 ∧
    (frequency_to_note 440).cents = some 0 ∧
    (frequency_to_note 440).confidence = 1 := by
  have h := (C5_amended 440).2 (by norm_num)
  have hlog : 12 * Real.logb 2 ((440 : ℝ) / 440) = 0 := by
    norm_num [Real.logb_one]
  have hround : round ((0 : ℝ)) = 0 := round_zero
  refine ⟨by norm_num, ?_, ?_, ?_⟩
  · rw [h.1, hlog]; norm_num
  · rw [h.2.2.2.2.1, hlog, hround]
    norm_num [round1]
  · rw [h.2.2.2.2.2.2.1, hlog, hround]
    simp only [Int.cast_zero]
    rw [show ((0 : ℝ) - 0) * 100 = 0 by ring, abs_zero,
      show (1 : ℝ) - 0 / 50 = 1 by norm_num,
      show (0 : ℝ) ⊔ 1 = 1 by norm_num, round2,
      show (100 : ℝ) * 1 = ((100 : ℤ) : ℝ) by norm_num, round_intCast]
    norm_num

/-- Claim C5 counterexample: at `f = 440 * 2^(1/30000)` the exact cents
deviation is `0.04`, but the returned `cents` field is `0` (the source
rounds to one decimal), so the claim's equation `cents = (12*log2(f/440)
- n) * 100` fails for the returned record. -/
theorem C5_counterexample :
    (frequency_to_note (440 * (2 : ℝ) ^ ((1 : ℝ) / 30000))).cents = some 0 ∧
    (12 * Real.logb 2 ((440 * (2 : ℝ) ^ ((1 : ℝ) / 30000)) / 440) -
      round (12 * Real.logb 2 ((440 * (2 : ℝ) ^ ((1 : ℝ) / 30000)) / 440))) * 100
      = 1 / 25 ∧
    (0 : ℝ) ≠ 1 / 25 := by
  have hpos : (0 : ℝ) < 440 * (2 : ℝ) ^ ((1 : ℝ) / 30000) := by positivity
  have hdiv : (440 * (2 : ℝ) ^ ((1 : ℝ) / 30000)) / 440 = (2 : ℝ) ^ ((1 : ℝ) / 30000) := by
    rw [mul_comm, mul_div_assoc, div_self (by norm_num : (440 : ℝ) ≠ 0), mul_one]
  have hlog : 12 * Real.logb 2 ((440 * (2 : ℝ) ^ ((1 : ℝ) / 30000)) / 440) = 1 / 2500 := by
    rw [hdiv, Real.logb_rpow (by norm_num) (by norm_num)]
    norm_num
  have hround : round ((1 : ℝ) / 2500) = 0 := by
    rw [round_eq]
    rw [show ((1 : ℝ) / 2500 + 1 / 2) = 1251 / 2500 by norm_num]
    apply Int.floor_eq_zero_iff.mpr
    constructor <;> norm_num
  refine ⟨?_, ?_, by norm_num⟩
  · rw [frequency_to_note_eq _ hpos]
    simp only [hlog, hround]
    have : round1 ((1 / 2500 - ((0 : ℤ) : ℝ)) * 100) = 0 := by
      have hx : ((1 : ℝ) / 2500 - ((0 : ℤ) : ℝ)) * 100 = 1 / 25 := by norm_num
      rw [round1, hx]
      rw [show (10 : ℝ) * (1 / 25) = 2 / 5 by norm_num]
      rw [round_eq, show ((2 : ℝ) / 5 + 1 / 2) = 9 / 10 by norm_num]
      rw [Int.floor_eq_zero_iff.mpr (by constructor <;> norm_num)]
      norm_num
    rw [this]
  · rw [hlog, hround]
    norm_num

/- ---------------------------------------------------------------------
Infrastructure for the autocorrelation claims (C6, C10)
--------------------------------------------------------------------- -/

theorem hanning_length (n : ℕ) : (hanning n).length = n := by
  unfold hanning
  split
  · simp_all
  · rw [List.length_map, List.length_range]

theorem windowSig_length (s : List ℝ) : (windowSig s).length = s.length := by
  simp [windowSig, hanning_length]

theorem acPreproc_length (s : List ℝ) : (acPreproc s).length = s.length := by
  unfold acPreproc normSig centerSig
  split <;> simp [windowSig_length]

theorem autocorrOf_length (s : List ℝ) : (autocorrOf s).length = s.length := by
  simp [autocorrOf]

theorem acCorr_length (s : List ℝ) : (acCorr s).length = s.length := by
  simp [acCorr, autocorrOf_length, acPreproc_length]

/-- Membership in the peak list, unfolded. -/
theorem mem_acPeaks_iff (signal : List ℝ) (sr : ℕ) (fmin fmax : ℝ) (i : ℕ) :
    i ∈ acPeaks signal sr fmin fmax ↔
      i < (acCorr signal).length ∧ acMinPeriod sr fmax ≤ i ∧
      (i : ℤ) < min (acMaxPeriod sr fmin) (((acCorr signal).length : ℤ) - 1) ∧
      pyNbr (acCorrZ signal sr fmax) ((i : ℤ) - 1) < (acCorrZ signal sr fmax).getD i 0 ∧
      (acCorrZ signal sr fmax).getD (i + 1) 0 < (acCorrZ signal sr fmax).getD i 0 := by
  simp [acPeaks, List.mem_filter, List.mem_range, decide_eq_true_eq, and_assoc]

theorem pickGo_spec (vals : List ℝ) :
    ∀ (t : List ℕ) (b : ℕ),
      (pickGo vals b t = b ∨ pickGo vals b t ∈ t) ∧
      vals.getD b 0 ≤ vals.getD (pickGo vals b t) 0 ∧
      ∀ i ∈ t, vals.getD i 0 ≤ vals.getD (pickGo vals b t) 0 := by
  intro t
  induction t with
  | nil => intro b; exact ⟨Or.inl rfl, le_refl _, by simp⟩
  | cons a t ih =>
    intro b
    by_cases hc : vals.getD b 0 < vals.getD a 0
    · have h := ih a
      rw [pickGo, if_pos hc]
      refine ⟨?_, le_trans (le_of_lt hc) h.2.1, ?_⟩
      · rcases h.1 with h1 | h1
        · exact Or.inr (by rw [h1]; exact List.mem_cons_self a t)
        · exact Or.inr (List.mem_cons_of_mem a h1)
      · intro i hi
        rcases List.mem_cons.mp hi with hi | hi
        · exact hi ▸ h.2.1
        · exact h.2.2 i hi
    · have h := ih b
      rw [pickGo, if_neg hc]
      refine ⟨?_, h.2.1, ?_⟩
      · rcases h.1 with h1 | h1
        · exact Or.inl h1
        · exact Or.inr (List.mem_cons_of_mem a h1)
      · intro i hi
        rcases List.mem_cons.mp hi with hi | hi
        · exact hi ▸ le_trans (le_of_not_lt hc) h.2.1
        · exact h.2.2 i hi

/-- Specification of the selected peak: it belongs to the peak list and
carries the maximal correlation value among the peaks. -/
theorem pickFirstMaxIdx_spec (vals : List ℝ) (ps : List ℕ) (j : ℕ)
    (h : pickFirstMaxIdx vals ps = some j) :
    j ∈ ps ∧ ∀ i ∈ ps, vals.getD i 0 ≤ vals.getD j 0 := by
  cases ps with
  | nil => simp [pickFirstMaxIdx] at h
  | cons a t =>
    rw [pickFirstMaxIdx, Option.some_inj] at h
    subst h
    have hs := pickGo_spec vals t a
    constructor
    · rcases hs.1 with h1 | h1
      · rw [h1]; exact List.mem_cons_self a t
      · exact List.mem_cons_of_mem a h1
    · intro i hi
      rcases List.mem_cons.mp hi with hi | hi
      · exact hi ▸ hs.2.1
      · exact hs.2.2 i hi

/-- The selection returns `none` exactly on the empty peak list. -/
theorem pickFirstMaxIdx_eq_none_iff (vals : List ℝ) (ps : List ℕ) :
    pickFirstMaxIdx vals ps = none ↔ ps = [] := by
  cases ps <;> simp [pickFirstMaxIdx]

/-- The parabolic-interpolation bound: at a strict local maximum the
fitted curvature is negative and the interpolation offset has magnitude
strictly below 1/2. -/
theorem parabola_bound {y1 y2 y3 : ℝ} (h1 : y1 < y2) (h3 : y3 < y2) :
    (y1 - 2 * y2 + y3) / 2 < 0 ∧
    |(-((y3 - y1) / 2)) / (2 * ((y1 - 2 * y2 + y3) / 2))| < 1 / 2 := by
  have hden : y1 - 2 * y2 + y3 < 0 := by linarith
  have hne : y1 - 2 * y2 + y3 ≠ 0 := ne_of_lt hden
  refine ⟨by linarith, ?_⟩
  have hx : (-((y3 - y1) / 2)) / (2 * ((y1 - 2 * y2 + y3) / 2)) =
      ((y2 - y1) - (y2 - y3)) / (2 * ((y2 - y1) + (y2 - y3))) := by
    rw [div_eq_div_iff (by linarith) (by linarith)]
    ring
  rw [hx, abs_div, abs_of_pos (show (0 : ℝ) < 2 * ((y2 - y1) + (y2 - y3)) by linarith),
    div_lt_iff₀ (by linarith)]
  have habs : |(y2 - y1) - (y2 - y3)| < (y2 - y1) + (y2 - y3) := by
    rw [abs_lt]
    constructor <;> linarith
  linarith

theorem acMinPeriod_pos (sr : ℕ) (fmax : ℝ) (h0 : 0 < fmax) (hle : fmax ≤ (sr : ℝ)) :
    1 ≤ acMinPeriod sr fmax := by
  have hx : (1 : ℝ) ≤ (sr : ℝ) / fmax := (one_le_div h0).mpr hle
  have hfl : (1 : ℤ) ≤ ⌊(sr : ℝ) / fmax⌋ := Int.le_floor.mpr (by exact_mod_cast hx)
  unfold acMinPeriod pyInt
  rw [if_neg (not_lt.mpr (le_trans (by norm_num) hx))]
  omega

theorem pyNbr_of_pos (l : List ℝ) (j : ℕ) (hj : 1 ≤ j) :
    pyNbr l ((j : ℤ) - 1) = l.getD (j - 1) 0 := by
  unfold pyNbr
  rw [if_neg (by omega)]
  congr 1
  omega

/- ---------------------------------------------------------------------
Claim C10 : safety of the selected-peak path
--------------------------------------------------------------------- -/

/-- Claim C10: for positive bounds with `fmax ≤ sr`, whenever the peak
selection returns a lag `j`, that lag is at least `int(sr/fmax) ≥ 1`, the
parabola's curvature coefficient `a` is strictly negative, the
interpolation offset has magnitude `< 1/2` (so the refined lag stays
positive), the division `sr / refined_lag` is by a strictly positive
number, and the returned frequency is strictly positive. -/
theorem C10_theorem (signal : List ℝ) (sr : ℕ) (fmin fmax : ℝ) (j : ℕ)
    (hfmin : 0 < fmin) (hfmax : 0 < fmax) (hle : fmax ≤ (sr : ℝ))
    (hbest : acBest signal sr fmin fmax = some j) :
    1 ≤ acMinPeriod sr fmax ∧ acMinPeriod sr fmax ≤ j ∧
    ((acCorrZ signal sr fmax).getD (j - 1) 0 - 2 * (acCorrZ signal sr fmax).getD j 0 +
      (acCorrZ signal sr fmax).getD (j + 1) 0) / 2 < 0 ∧
    |acRefine (acCorrZ signal sr fmax) (acCorr signal).length j - (j : ℝ)| < 1 / 2 ∧
    0 < acRefine (acCorrZ signal sr fmax) (acCorr signal).length j ∧
    autocorrelation_pitch signal sr fmin fmax =
      some ((sr : ℝ) / acRefine (acCorrZ signal sr fmax) (acCorr signal).length j,
        min 1 ((acCorrZ signal sr fmax).getD j 0)) ∧
    0 < (sr : ℝ) / acRefine (acCorrZ signal sr fmax) (acCorr signal).length j := by
  rw [acBest] at hbest
  obtain ⟨hmem, _⟩ := pickFirstMaxIdx_spec _ _ _ hbest
  rw [mem_acPeaks_iff] at hmem
  obtain ⟨hjn, hminle, hjlt, hy1, hy3⟩ := hmem
  have hminp : 1 ≤ acMinPeriod sr fmax := acMinPeriod_pos sr fmax hfmax hle
  have hj1 : 1 ≤ j := le_trans hminp hminle
  have hy1' : (acCorrZ signal sr fmax).getD (j - 1) 0 <
      (acCorrZ signal sr fmax).getD j 0 := by
    rw [← pyNbr_of_pos _ j hj1]
    exact hy1
  have hpar := parabola_bound hy1' hy3
  have hjn1 : j + 1 < (acCorr signal).length := by
    have h2 := lt_of_lt_of_le hjlt (min_le_right _ _)
    omega
  have hrefine : acRefine (acCorrZ signal sr fmax) (acCorr signal).length j =
      (j : ℝ) + (-(((acCorrZ signal sr fmax).getD (j + 1) 0 -
        (acCorrZ signal sr fmax).getD (j - 1) 0) / 2) /
        (2 * (((acCorrZ signal sr fmax).getD (j - 1) 0 -
          2 * (acCorrZ signal sr fmax).getD j 0 +
          (acCorrZ signal sr fmax).getD (j + 1) 0) / 2))) := by
    rw [acRefine, if_pos ⟨by omega, hjn1⟩, if_pos hpar.1]
  have habs : |acRefine (acCorrZ signal sr fmax) (acCorr signal).length j - (j : ℝ)| <
      1 / 2 := by
    rw [hrefine]
    simpa using hpar.2
  have hjR : (1 : ℝ) ≤ (j : ℝ) := by exact_mod_cast hj1
  have hposref : 0 < acRefine (acCorrZ signal sr fmax) (acCorr signal).length j := by
    have h2 := (abs_lt.mp habs).1
    linarith
  have hsig : signal ≠ [] := by
    intro h
    subst h
    rw [acCorr_length] at hjn
    simp at hjn
  have hsr : (0 : ℝ) < (sr : ℝ) := lt_of_lt_of_le hfmax hle
  have hfreq : 0 < (sr : ℝ) / acRefine (acCorrZ signal sr fmax) (acCorr signal).length j :=
    div_pos hsr hposref
  refine ⟨hminp, hminle, hpar.1, habs, hposref, ?_, hfreq⟩
  have hb2 : ¬ (fmin ≤ 0 ∨ fmax ≤ 0) := by
    rw [not_or, not_le, not_le]
    exact ⟨hfmin, hfmax⟩
  have hj0 : ¬ j = 0 := by omega
  rw [autocorrelation_pitch, if_neg hsig, if_neg hb2, acBest, hbest]
  dsimp only
  rw [if_neg hj0]

/- ---------------------------------------------------------------------
Concrete evaluation of autocorrelation_pitch on [1,1,1,1,1], sr 3,
fmin 1, fmax 2
--------------------------------------------------------------------- -/

theorem hanning_five : hanning 5 = [0, 1 / 2, 1, 1 / 2, 0] := by
  rw [hanning, if_neg (by norm_num), show List.range 5 = [0, 1, 2, 3, 4] from rfl]
  simp only [List.map_cons, List.map_nil]
  push_cast
  rw [show 2 * π * (0 : ℝ) / (5 - 1) = 0 by ring,
    show 2 * π * (1 : ℝ) / (5 - 1) = π / 2 by ring,
    show 2 * π * (2 : ℝ) / (5 - 1) = π by ring,
    show 2 * π * (3 : ℝ) / (5 - 1) = π / 2 + π by ring,
    show 2 * π * (4 : ℝ) / (5 - 1) = 2 * π by ring,
    Real.cos_zero, Real.cos_pi_div_two, Real.cos_pi, Real.cos_add_pi, Real.cos_two_pi]
  norm_num

theorem acPreproc_ones :
    acPreproc [1, 1, 1, 1, 1] = [-2 / 3, 1 / 6, 1, 1 / 6, -2 / 3] := by
  have hw : windowSig [1, 1, 1, 1, 1] = [0, 1 / 2, 1, 1 / 2, 0] := by
    rw [windowSig, show ([1, 1, 1, 1, 1] : List ℝ).length = 5 from rfl, hanning_five]
    simp only [List.zipWith_cons_cons, List.zipWith_nil_right, List.zipWith_nil_left]
    norm_num
  have hc : centerSig [0, 1 / 2, 1, 1 / 2, 0] =
      [-2 / 5, 1 / 10, 3 / 5, 1 / 10, -2 / 5] := by
    rw [centerSig, lmean]
    simp only [List.sum_cons, List.sum_nil, List.map_cons, List.map_nil]
    norm_num
  have hm : maxAbs [-2 / 5, 1 / 10, 3 / 5, 1 / 10, -2 / 5] = 3 / 5 := by
    rw [maxAbs]
    simp only [List.map_cons, List.map_nil, List.foldr]
    rw [show |(-2 / 5 : ℝ)| = 2 / 5 from by norm_num,
      show |(1 / 10 : ℝ)| = 1 / 10 from by norm_num,
      show |(3 / 5 : ℝ)| = 3 / 5 from by norm_num]
    rw [show max (2 / 5 : ℝ) 0 = 2 / 5 from by norm_num,
      show max (1 / 10 : ℝ) (2 / 5) = 2 / 5 from by norm_num,
      show max (3 / 5 : ℝ) (2 / 5) = 3 / 5 from by norm_num,
      show max (1 / 10 : ℝ) (3 / 5) = 3 / 5 from by norm_num,
      show max (2 / 5 : ℝ) (3 / 5) = 3 / 5 from by norm_num]
  have hn : normSig [-2 / 5, 1 / 10, 3 / 5, 1 / 10, -2 / 5] =
      [-2 / 3, 1 / 6, 1, 1 / 6, -2 / 3] := by
    rw [normSig, if_pos (by rw [hm]; norm_num), hm]
    simp only [List.map_cons, List.map_nil]
    norm_num
  rw [acPreproc, hw, hc, hn]

theorem acCorr_ones :
    acCorr [1, 1, 1, 1, 1] = [35 / 18, 1 / 9, -47 / 36, -2 / 9, 4 / 9] := by
  rw [acCorr, acPreproc_ones, autocorrOf]
  rw [show ([-2 / 3, 1 / 6, 1, 1 / 6, -2 / 3] : List ℝ).length = 5 from rfl,
    show List.range 5 = [0, 1, 2, 3, 4] from rfl]
  simp only [List.map_cons, List.map_nil]
  norm_num [List.getD_cons_zero, List.getD_cons_succ, show List.range 5 = [0,1,2,3,4] from rfl,
    show List.range 4 = [0,1,2,3] from rfl, show List.range 3 = [0,1,2] from rfl,
    show List.range 2 = [0,1] from rfl, show List.range 1 = [0] from rfl,
    List.sum_cons, List.sum_nil]

theorem acMinPeriod_3_2 : acMinPeriod 3 2 = 1 := by
  rw [acMinPeriod, pyInt, if_neg (not_lt.mpr (by positivity))]
  rw [show ((3 : ℕ) : ℝ) / 2 = 3 / 2 by norm_num]
  rw [show ⌊(3 : ℝ) / 2⌋ = 1 from by
    apply Int.floor_eq_iff.mpr; norm_num]
  rfl

theorem acMaxPeriod_3_1 : acMaxPeriod 3 1 = 3 := by
  rw [acMaxPeriod, pyInt, if_neg (not_lt.mpr (by positivity))]
  rw [show ((3 : ℕ) : ℝ) / 1 = ((3 : ℤ) : ℝ) by norm_num, Int.floor_intCast]

theorem acCorrZ_ones :
    acCorrZ [1, 1, 1, 1, 1] 3 2 = [0, 1 / 9, -47 / 36, -2 / 9, 4 / 9] := by
  rw [acCorrZ, acCorr_ones, acMinPeriod_3_2, zeroFirst]
  norm_num

theorem acPeaks_ones : acPeaks [1, 1, 1, 1, 1] 3 1 2 = [1] := by
  have h5 : (acCorr [1, 1, 1, 1, 1] : List ℝ).length = 5 := by
    rw [acCorr_ones]
    rfl
  rw [acPeaks, h5, acMinPeriod_3_2, acMaxPeriod_3_1, acCorrZ_ones,
    show List.range 5 = [0, 1, 2, 3, 4] from rfl]
  norm_num [List.filter_cons, List.filter_nil, pyNbr,
    List.getD_cons_zero, List.getD_cons_succ]

theorem acBest_ones : acBest [1, 1, 1, 1, 1] 3 1 2 = some 1 := by
  rw [acBest, acPeaks_ones, acCorrZ_ones]
  rfl

/-- Full evaluation: the boundary lag 1 (= int(sr/fmax)) is selected
because its zeroed left neighbour compares as 0, and parabolic
refinement returns lag 63/110, frequency 110/21 ≈ 5.24 Hz,
confidence 1/9. -/
theorem acPitch_ones :
    autocorrelation_pitch [1, 1, 1, 1, 1] 3 1 2 = some (110 / 21, 1 / 9) := by
  have h5 : (acCorr [1, 1, 1, 1, 1] : List ℝ).length = 5 := by
    rw [acCorr_ones]
    rfl
  rw [autocorrelation_pitch, if_neg (by simp),
    if_neg (by rw [not_or, not_le, not_le]; norm_num), acBest_ones]
  dsimp only
  rw [if_neg (by norm_num), h5, acCorrZ_ones]
  rw [acRefine, if_pos (by norm_num)]
  rw [if_pos (by norm_num [List.getD_cons_zero, List.getD_cons_succ])]
  norm_num [List.getD_cons_zero, List.getD_cons_succ]

/- ---------------------------------------------------------------------
Claim C6 : peak picking of the autocorrelation estimator
--------------------------------------------------------------------- -/

/-- The claim's notion of a strict local maximum of the UNmodified
non-negative-lag autocorrelation: an interior index whose value exceeds
both of its true neighbours.  Stated from the claim's words, for
comparison with the code's peak predicate (which reads the array whose
first `int(sr/fmax)` entries were zeroed). -/
def isStrictLocalMax (l : List ℝ) (i : ℕ) : Prop :=
  0 < i ∧ i + 1 < l.length ∧
  l.getD (i - 1) 0 < l.getD i 0 ∧ l.getD (i + 1) 0 < l.getD i 0

/-- Claim C6 counterexample.  For the signal [1,1,1,1,1] with sr 3,
fmin 1, fmax 2 the search range is [int(3/2), int(3/1)) = [1, 3); the
true autocorrelation [35/18, 1/9, -47/36, -2/9, 4/9] has NO strict local
maximum at lag 1 or lag 2 (it is decreasing there), so the claim requires
the return value (0, 0); but the code zeroes lag 0 before the scan, so
lag 1's left neighbour compares as 0 and lag 1 is selected as a peak: the
code returns (110/21, 1/9) ≠ (0, 0). -/
theorem C6_counterexample :
    (¬ isStrictLocalMax (acCorr [1, 1, 1, 1, 1]) 1) ∧
    (¬ isStrictLocalMax (acCorr [1, 1, 1, 1, 1]) 2) ∧
    acMinPeriod 3 2 = 1 ∧ acMaxPeriod 3 1 = 3 ∧
    autocorrelation_pitch [1, 1, 1, 1, 1] 3 1 2 = some (110 / 21, 1 / 9) ∧
    (some ((110 : ℝ) / 21, (1 : ℝ) / 9) : Option (ℝ × ℝ)) ≠ some (0, 0) := by
  refine ⟨?_, ?_, acMinPeriod_3_2, acMaxPeriod_3_1, acPitch_ones, ?_⟩
  · intro h
    rw [acCorr_ones] at h
    have := h.2.2.1
    norm_num [List.getD_cons_zero, List.getD_cons_succ] at this
  · intro h
    rw [acCorr_ones] at h
    have := h.2.2.1
    norm_num [List.getD_cons_zero, List.getD_cons_succ] at this
  · intro h
    rw [Option.some_inj, Prod.mk.injEq] at h
    norm_num at h

/-- Claim C6 (amended): for a nonempty signal and positive bounds, the
code scans for strict local maxima OF THE MODIFIED autocorrelation in
which all lags below `int(sr/fmax)` are zeroed (so at the boundary lag
the left neighbour compares as 0, and at lag 0 Python indexing wraps the
left neighbour to the last entry), over the index range
`[int(sr/fmax), min(int(sr/fmin), len-1))`.  If that scan finds no peak
the function returns `(0, 0)`; otherwise it selects a peak with the
maximal modified-correlation value and, when the selected lag is
nonzero, returns `(sr / refined_lag, min(1, peak value))` with the
parabolic refinement of `acRefine` (a selected zero lag instead raises
ZeroDivisionError). -/
theorem C6_amended (signal : List ℝ) (sr : ℕ) (fmin fmax : ℝ)
    (hsig : signal ≠ []) (hfmin : 0 < fmin) (hfmax : 0 < fmax) :
    (acPeaks signal sr fmin fmax = [] →
      autocorrelation_pitch signal sr fmin fmax = some (0, 0)) ∧
    (∀ j, acBest signal sr fmin fmax = some j →
      j ∈ acPeaks signal sr fmin fmax ∧
      (∀ i ∈ acPeaks signal sr fmin fmax,
        (acCorrZ signal sr fmax).getD i 0 ≤ (acCorrZ signal sr fmax).getD j 0) ∧
      (0 < j →
        autocorrelation_pitch signal sr fmin fmax =
          some ((sr : ℝ) / acRefine (acCorrZ signal sr fmax) (acCorr signal).length j,
            min 1 ((acCorrZ signal sr fmax).getD j 0)))) := by
  have hb2 : ¬ (fmin ≤ 0 ∨ fmax ≤ 0) := by
    rw [not_or, not_le, not_le]
    exact ⟨hfmin, hfmax⟩
  constructor
  · intro hps
    have hnone : acBest signal sr fmin fmax = none := by
      rw [acBest, hps]
      rfl
    rw [autocorrelation_pitch, if_neg hsig, if_neg hb2, hnone]
  · intro j hbest
    have hspec := pickFirstMaxIdx_spec _ _ _ (by rw [← acBest]; exact hbest)
    refine ⟨hspec.1, hspec.2, ?_⟩
    intro hj
    have hj0 : ¬ j = 0 := by omega
    rw [autocorrelation_pitch, if_neg hsig, if_neg hb2, hbest]
    dsimp only
    rw [if_neg hj0]

/-- Claim C6 witness: the amended statement applied to the
[1,1,1,1,1] / sr 3 / fmin 1 / fmax 2 run, whose selected peak is lag 1. -/
theorem C6_witness :
    ([1, 1, 1, 1, 1] : List ℝ) ≠ [] ∧ (0 : ℝ) < 1 ∧ (0 : ℝ) < 2 ∧
    1 ∈ acPeaks [1, 1, 1, 1, 1] 3 1 2 ∧
    autocorrelation_pitch [1, 1, 1, 1, 1] 3 1 2 =
      some (((3 : ℕ) : ℝ) /
          acRefine (acCorrZ [1, 1, 1, 1, 1] 3 2) (acCorr [1, 1, 1, 1, 1]).length 1,
        min 1 ((acCorrZ [1, 1, 1, 1, 1] 3 2).getD 1 0)) := by
  have h := C6_amended [1, 1, 1, 1, 1] 3 1 2 (by simp) (by norm_num) (by norm_num)
  have h2 := h.2 1 acBest_ones
  exact ⟨by simp, by norm_num, by norm_num, h2.1, h2.2.2 (by norm_num)⟩

/-- Claim C10 witness: the safety statement applied to the same concrete
run. -/
theorem C10_witness :
    (0 : ℝ) < 1 ∧ (0 : ℝ) < 2 ∧ (2 : ℝ) ≤ ((3 : ℕ) : ℝ) ∧
    1 ≤ acMinPeriod 3 2 ∧
    0 < acRefine (acCorrZ [1, 1, 1, 1, 1] 3 2) (acCorr [1, 1, 1, 1, 1]).length 1 ∧
    0 < ((3 : ℕ) : ℝ) /
      acRefine (acCorrZ [1, 1, 1, 1, 1] 3 2) (acCorr [1, 1, 1, 1, 1]).length 1 := by
  have h := C10_theorem [1, 1, 1, 1, 1] 3 1 2 1 (by norm_num) (by norm_num)
    (by push_cast; norm_num) acBest_ones
  exact ⟨by norm_num, by norm_num, by push_cast; norm_num, h.1,
    h.2.2.2.2.1, h.2.2.2.2.2.2⟩

/- ---------------------------------------------------------------------
Zero-signal evaluations (used for C7 and C9)
--------------------------------------------------------------------- -/

theorem getD_replicate_zero (n j : ℕ) : (List.replicate n (0 : ℝ)).getD j 0 = 0 := by
  induction n generalizing j with
  | zero => simp
  | succ m ih =>
    cases j with
    | zero => simp [List.replicate_succ]
    | succ k => simp [List.replicate_succ, ih]

theorem map_const_zero (l : List ℕ) :
    l.map (fun _ => (0 : ℝ)) = List.replicate l.length 0 := by
  induction l with
  | nil => rfl
  | cons a t ih => simp [List.replicate_succ, ih]

theorem zipWith_mul_replicate_zero :
    ∀ (n : ℕ) (l : List ℝ),
      List.zipWith (fun a b => a * b) (List.replicate n (0 : ℝ)) l =
        List.replicate (min n l.length) 0 := by
  intro n
  induction n with
  | zero => intro l; simp
  | succ m ih =>
    intro l
    cases l with
    | nil => simp
    | cons x t => simp [List.replicate_succ, ih t, Nat.succ_min_succ]

theorem foldr_max_replicate_zero (n : ℕ) :
    (List.replicate n (0 : ℝ)).foldr max 0 = 0 := by
  induction n with
  | zero => rfl
  | succ m ih => simp [List.replicate_succ, ih]

theorem maxAbs_replicate_zero (n : ℕ) : maxAbs (List.replicate n 0) = 0 := by
  rw [maxAbs, List.map_replicate]
  rw [show |(0 : ℝ)| = 0 from abs_zero]
  exact foldr_max_replicate_zero n

theorem lmean_replicate_zero (n : ℕ) : lmean (List.replicate n 0) = 0 := by
  rw [lmean, List.sum_replicate]
  simp

theorem centerSig_replicate_zero (n : ℕ) :
    centerSig (List.replicate n 0) = List.replicate n 0 := by
  rw [centerSig, lmean_replicate_zero, List.map_replicate]
  norm_num

theorem normSig_replicate_zero (n : ℕ) :
    normSig (List.replicate n 0) = List.replicate n 0 := by
  rw [normSig, if_neg]
  rw [maxAbs_replicate_zero]
  exact lt_irrefl 0

theorem windowSig_replicate_zero (n : ℕ) :
    windowSig (List.replicate n 0) = List.replicate n 0 := by
  rw [windowSig, List.length_replicate, zipWith_mul_replicate_zero, hanning_length,
    min_self]

theorem acPreproc_replicate_zero (n : ℕ) :
    acPreproc (List.replicate n 0) = List.replicate n 0 := by
  rw [acPreproc, windowSig_replicate_zero, centerSig_replicate_zero,
    normSig_replicate_zero]

theorem autocorrOf_replicate_zero (n : ℕ) :
    autocorrOf (List.replicate n 0) = List.replicate n 0 := by
  rw [autocorrOf, List.length_replicate]
  have h : ∀ t ∈ List.range n,
      ((List.range (n - t)).map (fun j =>
        (List.replicate n (0 : ℝ)).getD j 0 *
        (List.replicate n (0 : ℝ)).getD (j + t) 0)).sum = (fun _ : ℕ => (0 : ℝ)) t := by
    intro t _
    apply List.sum_eq_zero
    intro x hx
    rw [List.mem_map] at hx
    obtain ⟨j, _, rfl⟩ := hx
    rw [getD_replicate_zero, zero_mul]
  rw [List.map_congr_left h, map_const_zero, List.length_range]

theorem acCorr_replicate_zero (n : ℕ) :
    acCorr (List.replicate n 0) = List.replicate n 0 := by
  rw [acCorr, acPreproc_replicate_zero, autocorrOf_replicate_zero]

theorem rfftRe_replicate_zero (n k : ℕ) : rfftRe (List.replicate n 0) k = 0 := by
  rw [rfftRe]
  apply List.sum_eq_zero
  intro x hx
  rw [List.mem_map] at hx
  obtain ⟨j, _, rfl⟩ := hx
  rw [getD_replicate_zero, zero_mul]

theorem rfftIm_replicate_zero (n k : ℕ) : rfftIm (List.replicate n 0) k = 0 := by
  rw [rfftIm]
  apply List.sum_eq_zero
  intro x hx
  rw [List.mem_map] at hx
  obtain ⟨j, _, rfl⟩ := hx
  rw [getD_replicate_zero, zero_mul]

theorem rfftMag_replicate_zero (n : ℕ) :
    rfftMag (List.replicate n 0) = List.replicate (n / 2 + 1) 0 := by
  rw [rfftMag, List.length_replicate]
  have h : ∀ k ∈ List.range (n / 2 + 1),
      Real.sqrt (rfftRe (List.replicate n 0) k ^ 2 + rfftIm (List.replicate n 0) k ^ 2) =
        (fun _ : ℕ => (0 : ℝ)) k := by
    intro k _
    rw [rfftRe_replicate_zero, rfftIm_replicate_zero]
    norm_num
  rw [List.map_congr_left h, map_const_zero, List.length_range]

theorem hpsOf_replicate_zero (L nh : ℕ) :
    hpsOf (List.replicate L 0) nh = List.replicate L 0 := by
  rw [hpsOf, List.length_replicate]
  have h : ∀ k ∈ List.range L,
      (List.replicate L (0 : ℝ)).getD k 0 *
        ((List.range (nh - 1)).map (fun h =>
          if (h + 2) * k < L then (List.replicate L (0 : ℝ)).getD ((h + 2) * k) 0
          else 1)).prod = (fun _ : ℕ => (0 : ℝ)) k := by
    intro k _
    rw [getD_replicate_zero, zero_mul]
  rw [List.map_congr_left h, map_const_zero, List.length_range]

theorem zeroFirst_zero (l : List ℝ) : zeroFirst l 0 = l := by
  simp [zeroFirst]

theorem acMinPeriod_159_2000 : acMinPeriod 159 2000 = 0 := by
  rw [acMinPeriod, pyInt, if_neg (not_lt.mpr (by positivity))]
  rw [show ⌊((159 : ℕ) : ℝ) / 2000⌋ = 0 from by
    apply Int.floor_eq_zero_iff.mpr
    constructor
    · positivity
    · push_cast; norm_num]
  rfl

theorem acMaxPeriod_159_80 : acMaxPeriod 159 80 = 1 := by
  rw [acMaxPeriod, pyInt, if_neg (not_lt.mpr (by positivity))]
  apply Int.floor_eq_iff.mpr
  push_cast
  norm_num

theorem acCorrZ_zeros4 : acCorrZ (List.replicate 4 0) 159 2000 = List.replicate 4 0 := by
  rw [acCorrZ, acCorr_replicate_zero, acMinPeriod_159_2000, zeroFirst_zero]

theorem acPeaks_zeros4 : acPeaks (List.replicate 4 0) 159 80 2000 = [] := by
  have h4 : (acCorr (List.replicate 4 (0 : ℝ))).length = 4 := by
    rw [acCorr_replicate_zero]
    simp
  rw [acPeaks, h4, acMinPeriod_159_2000, acMaxPeriod_159_80, acCorrZ_zeros4,
    show List.range 4 = [0, 1, 2, 3] from rfl]
  norm_num [List.filter_cons, List.filter_nil, pyNbr, getD_replicate_zero]

theorem acBest_zeros4 : acBest (List.replicate 4 0) 159 80 2000 = none := by
  rw [acBest, acPeaks_zeros4]
  rfl

theorem acPitch_zeros4 :
    autocorrelation_pitch (List.replicate 4 0) 159 80 2000 = some (0, 0) := by
  rw [autocorrelation_pitch, if_neg (by simp),
    if_neg (by rw [not_or, not_le, not_le]; norm_num), acBest_zeros4]

theorem hps_zeros4 :
    harmonic_product_spectrum (List.replicate 4 0) 159 5 = some (0, 0) := by
  rw [harmonic_product_spectrum, if_neg (by simp)]
  simp only [windowSig_replicate_zero, rfftMag_replicate_zero, hpsOf_replicate_zero,
    List.length_replicate]
  rw [show (4 : ℕ) / 2 + 1 = 3 from rfl]
  have hmin : ((List.range 3).find? (fun k =>
      decide ((80 : ℝ) ≤ freqBin 159 4 k))) = none := by
    rw [show List.range 3 = [0, 1, 2] from rfl,
      List.find?_cons_of_neg _ (by simp only [decide_eq_true_eq, freqBin]; push_cast; norm_num),
      List.find?_cons_of_neg _ (by simp only [decide_eq_true_eq, freqBin]; push_cast; norm_num),
      List.find?_cons_of_neg _ (by simp only [decide_eq_true_eq, freqBin]; push_cast; norm_num),
      List.find?_nil]
  have hmax : (((List.range 3).reverse).find? (fun k =>
      decide (freqBin 159 4 k ≤ 2000))) = some 2 := by
    rw [show (List.range 3).reverse = [2, 1, 0] from rfl,
      List.find?_cons_of_pos _ (by simp only [decide_eq_true_eq, freqBin]; push_cast; norm_num)]
  rw [hmin, hmax]
  simp only [Option.getD_none, Option.getD_some]
  rw [show List.take (2 - 0) (List.drop 0 (List.replicate 3 (0 : ℝ))) = [0, 0] from rfl]
  rw [show argmaxFirst [(0 : ℝ), 0] = some 0 from by
    rw [argmaxFirst, argmaxFirstAux, if_neg (lt_irrefl 0), argmaxFirstAux]]
  dsimp only
  rw [if_neg (by norm_num)]
  rw [show freqBin 159 4 (0 + 0) = 0 from by rw [freqBin]; push_cast; norm_num]

/- ---------------------------------------------------------------------
Claim C7 : the combined estimator
--------------------------------------------------------------------- -/

/-- Claim C7: whenever both estimators return (no exception), the
combined estimator maps the confidence-weighted fusion through
`frequency_to_note`, overwrites the mapper's confidence with the fused
confidence rounded to 2 decimals, tags the method "combined", and the
fusion obeys the claimed case split: weighted average when both
confidences are positive, the confident estimator verbatim when exactly
one is, and (0, 0) when neither is. -/
theorem C7_theorem (signal : List ℝ) (sr : ℕ) (p1 p2 : ℝ × ℝ)
    (h1 : autocorrelation_pitch signal sr 80 2000 = some p1)
    (h2 : harmonic_product_spectrum signal sr 5 = some p2) :
    detect_pitch_advanced signal sr =
      some { frequency_to_note (fusePitch p1 p2).1 with
               confidence := round2 (fusePitch p1 p2).2
               method := some methodCombined } ∧
    (0 < p1.2 → 0 < p2.2 →
      fusePitch p1 p2 =
        ((p1.1 * p1.2 + p2.1 * p2.2) / (p1.2 + p2.2), (p1.2 + p2.2) / 2)) ∧
    (0 < p1.2 → p2.2 ≤ 0 → fusePitch p1 p2 = p1) ∧
    (p1.2 ≤ 0 → 0 < p2.2 → fusePitch p1 p2 = p2) ∧
    (p1.2 ≤ 0 → p2.2 ≤ 0 → fusePitch p1 p2 = (0, 0)) := by
  refine ⟨?_, ?_, ?_, ?_, ?_⟩
  · rw [detect_pitch_advanced, h1]
    dsimp only
    rw [h2]
  · intro a b
    rw [fusePitch, if_pos ⟨a, b⟩]
  · intro a b
    rw [fusePitch, if_neg (by rintro ⟨_, hb⟩; exact absurd hb (not_lt.mpr b)), if_pos a]
  · intro a b
    rw [fusePitch, if_neg (by rintro ⟨ha, _⟩; exact absurd ha (not_lt.mpr a)),
      if_neg (not_lt.mpr a), if_pos b]
  · intro a b
    rw [fusePitch, if_neg (by rintro ⟨ha, _⟩; exact absurd ha (not_lt.mpr a)),
      if_neg (not_lt.mpr a), if_neg (not_lt.mpr b)]

/-- Claim C7 witness: on the all-zero 4-sample signal at sr 159 both
estimators return (0, 0) (autocorrelation finds no peak; the HPS peak
lands on bin 0, whose prominence branch is skipped), and the fused
result is the sentinel record with confidence 0 and method "combined". -/
theorem C7_witness :
    autocorrelation_pitch (List.replicate 4 0) 159 80 2000 = some (0, 0) ∧
    harmonic_product_spectrum (List.replicate 4 0) 159 5 = some (0, 0) ∧
    detect_pitch_advanced (List.replicate 4 0) 159 =
      some { note := silentLabel, frequency := 0, cents := some 0, octave := some 0,
             confidence := 0, method := some methodCombined } := by
  have h := C7_theorem (List.replicate 4 0) 159 (0, 0) (0, 0) acPitch_zeros4 hps_zeros4
  refine ⟨acPitch_zeros4, hps_zeros4, ?_⟩
  rw [h.1]
  have hfuse : fusePitch ((0 : ℝ), (0 : ℝ)) ((0 : ℝ), (0 : ℝ)) = (0, 0) :=
    h.2.2.2.2 (le_refl 0) (le_refl 0)
  rw [hfuse]
  rw [show frequency_to_note (0, (0 : ℝ)).1 = frequency_to_note 0 from rfl]
  rw [show (frequency_to_note 0) =
      { note := silentLabel, frequency := 0, cents := some 0, octave := some 0,
        confidence := 0 } from by rw [frequency_to_note, if_pos (le_refl 0)]]
  rw [show round2 ((0 : ℝ), (0 : ℝ)).2 = 0 from by rw [round2]; norm_num]

/- ---------------------------------------------------------------------
Claim C9 : the unguarded HPS prominence division
--------------------------------------------------------------------- -/

/-- Claim C9: refuted on the HPS prominence ratio.  On the all-zero
8-sample signal at sr 800 the peak bin is 1 (interior), the ±10-bin
window mean — the division's denominator — is 0, and the source divides
by it unguarded: NumPy produces NaN for 0/0 and Python's `min(1.0, NaN)`
returns 1.0, so the estimator reports frequency 100 Hz with confidence
1.0 for a spectrally silent input instead of a zero/sentinel result. -/
theorem C9_code_eval :
    harmonic_product_spectrum (List.replicate 8 0) 800 5 = some (100, 1) ∧
    hpsWindowMean (hpsOf (rfftMag (windowSig (List.replicate 8 0))) 5) 1 = 0 := by
  have hwm : hpsWindowMean (List.replicate 5 (0 : ℝ)) 1 = 0 := by
    rw [hpsWindowMean]
    rw [show List.take (1 + 10 - (1 - 10)) (List.drop (1 - 10) (List.replicate 5 (0 : ℝ))) =
      [0, 0, 0, 0, 0] from rfl]
    rw [lmean]
    norm_num
  constructor
  · rw [harmonic_product_spectrum, if_neg (by simp)]
    simp only [windowSig_replicate_zero, rfftMag_replicate_zero, hpsOf_replicate_zero,
      List.length_replicate]
    rw [show (8 : ℕ) / 2 + 1 = 5 from rfl]
    have hmin : ((List.range 5).find? (fun k =>
        decide ((80 : ℝ) ≤ freqBin 800 8 k))) = some 1 := by
      rw [show List.range 5 = [0, 1, 2, 3, 4] from rfl,
        List.find?_cons_of_neg _ (by simp only [decide_eq_true_eq, freqBin]; push_cast; norm_num),
        List.find?_cons_of_pos _ (by simp only [decide_eq_true_eq, freqBin]; push_cast; norm_num)]
    have hmax : (((List.range 5).reverse).find? (fun k =>
        decide (freqBin 800 8 k ≤ 2000))) = some 4 := by
      rw [show (List.range 5).reverse = [4, 3, 2, 1, 0] from rfl,
        List.find?_cons_of_pos _ (by simp only [decide_eq_true_eq, freqBin]; push_cast; norm_num)]
    rw [hmin, hmax]
    simp only [Option.getD_some]
    rw [show List.take (4 - 1) (List.drop 1 (List.replicate 5 (0 : ℝ))) = [0, 0, 0] from rfl]
    rw [show argmaxFirst [(0 : ℝ), 0, 0] = some 0 from by
      rw [argmaxFirst, argmaxFirstAux, if_neg (lt_irrefl 0), argmaxFirstAux,
        if_neg (lt_irrefl 0), argmaxFirstAux]]
    dsimp only
    rw [if_pos (by norm_num), if_pos (by rw [show (0 : ℕ) + 1 = 1 from rfl, hwm])]
    rw [show freqBin 800 8 (0 + 1) = 100 from by rw [freqBin]; push_cast; norm_num]
  · rw [windowSig_replicate_zero, rfftMag_replicate_zero,
      show (8 : ℕ) / 2 + 1 = 5 from rfl, hpsOf_replicate_zero]
    exact hwm

/- ---------------------------------------------------------------------
Claim C8 : infrastructure for analyze_note_stability
--------------------------------------------------------------------- -/

/-- The insertion order of the Python dict `note_counts`: the non-silent
labels in first-encounter order. -/
def keyOrder (notes : List String) : List String :=
  notes.foldl (fun ks n =>
    if n = silentLabel then ks else if n ∈ ks then ks else ks ++ [n]) []

theorem buildCounts_concat (notes : List String) (s : String) :
    buildCounts (notes ++ [s]) =
      if s = silentLabel then buildCounts notes else bump (buildCounts notes) s := by
  rw [buildCounts, buildCounts, List.foldl_append]
  rfl

theorem keyOrder_concat (notes : List String) (s : String) :
    keyOrder (notes ++ [s]) =
      if s = silentLabel then keyOrder notes
      else if s ∈ keyOrder notes then keyOrder notes else keyOrder notes ++ [s] := by
  rw [keyOrder, keyOrder, List.foldl_append]
  rfl

theorem bump_map_of_not_mem (ks : List String) (f : String → ℕ) (s : String)
    (hs : s ∉ ks) :
    bump (ks.map (fun k => (k, f k))) s = ks.map (fun k => (k, f k)) ++ [(s, 1)] := by
  induction ks with
  | nil => rfl
  | cons a t ih =>
    have has : ¬ a = s := fun h => hs (h ▸ List.mem_cons_self a t)
    simp only [List.map_cons, bump, if_neg has]
    rw [ih (fun h => hs (List.mem_cons_of_mem a h))]
    rfl

theorem bump_map_of_mem (ks : List String) (f : String → ℕ) (s : String)
    (hnd : ks.Nodup) (hs : s ∈ ks) :
    bump (ks.map (fun k => (k, f k))) s =
      ks.map (fun k => (k, if k = s then f k + 1 else f k)) := by
  induction ks with
  | nil => simp at hs
  | cons a t ih =>
    rw [List.nodup_cons] at hnd
    by_cases has : a = s
    · subst has
      simp only [List.map_cons, bump, if_pos rfl, if_true]
      congr 1
      apply List.map_congr_left
      intro k hk
      have hka : ¬ k = a := fun h => hnd.1 (h ▸ hk)
      rw [if_neg hka]
    · simp only [List.map_cons, bump, if_neg has]
      rw [ih hnd.2 (by rcases List.mem_cons.mp hs with h | h; exact absurd h.symm has; exact h)]

theorem keyOrder_spec (notes : List String) :
    (∀ k, k ∈ keyOrder notes ↔ k ∈ notes ∧ k ≠ silentLabel) ∧
    (keyOrder notes).Nodup ∧
    List.Pairwise (fun a b => notes.indexOf a < notes.indexOf b) (keyOrder notes) := by
  induction notes using List.reverseRecOn with
  | nil => exact ⟨by simp [keyOrder], by simp [keyOrder], by simp [keyOrder]⟩
  | append_singleton l s ih =>
    obtain ⟨hmem, hnd, hpw⟩ := ih
    rw [keyOrder_concat]
    have hkeep : List.Pairwise
        (fun a b => (l ++ [s]).indexOf a < (l ++ [s]).indexOf b) (keyOrder l) := by
      apply hpw.imp_of_mem
      intro a b ha hb hr
      rw [List.indexOf_append_of_mem ((hmem a).mp ha).1,
        List.indexOf_append_of_mem ((hmem b).mp hb).1]
      exact hr
    by_cases hs : s = silentLabel
    · rw [if_pos hs]
      refine ⟨?_, hnd, hkeep⟩
      intro k
      rw [hmem k]
      constructor
      · rintro ⟨hk, hne⟩
        exact ⟨List.mem_append_left _ hk, hne⟩
      · rintro ⟨hk, hne⟩
        rcases List.mem_append.mp hk with h | h
        · exact ⟨h, hne⟩
        · rw [List.mem_singleton] at h
          exact absurd (h.trans hs) hne
    · rw [if_neg hs]
      by_cases hsk : s ∈ keyOrder l
      · rw [if_pos hsk]
        refine ⟨?_, hnd, hkeep⟩
        intro k
        rw [hmem k]
        constructor
        · rintro ⟨hk, hne⟩
          exact ⟨List.mem_append_left _ hk, hne⟩
        · rintro ⟨hk, hne⟩
          rcases List.mem_append.mp hk with h | h
          · exact ⟨h, hne⟩
          · rw [List.mem_singleton] at h
            subst h
            exact ⟨((hmem k).mp hsk).1, hne⟩
      · rw [if_neg hsk]
        have hsl : s ∉ l := fun h => hsk ((hmem s).mpr ⟨h, hs⟩)
        refine ⟨?_, ?_, ?_⟩
        · intro k
          simp only [List.mem_append, List.mem_singleton]
          constructor
          · rintro (hk | rfl)
            · obtain ⟨h1, h2⟩ := (hmem k).mp hk
              exact ⟨Or.inl h1, h2⟩
            · exact ⟨Or.inr rfl, hs⟩
          · rintro ⟨hk | rfl, hne⟩
            · exact Or.inl ((hmem k).mpr ⟨hk, hne⟩)
            · exact Or.inr rfl
        · rw [List.nodup_append]
          refine ⟨hnd, List.nodup_singleton s, ?_⟩
          intro a ha hb
          rw [List.mem_singleton] at hb
          subst hb
          exact hsk ha
        · rw [List.pairwise_append]
          refine ⟨hkeep, List.pairwise_singleton _ _, ?_⟩
          intro a ha b hb
          rw [List.mem_singleton] at hb
          subst hb
          rw [List.indexOf_append_of_mem ((hmem a).mp ha).1,
            List.indexOf_append_of_not_mem hsl, List.indexOf_cons_self]
          calc List.indexOf a l < l.length := List.indexOf_lt_length.mpr ((hmem a).mp ha).1
            _ ≤ l.length + 0 := by omega

theorem buildCounts_eq (notes : List String) :
    buildCounts notes = (keyOrder notes).map (fun k => (k, notes.count k)) := by
  induction notes using List.reverseRecOn with
  | nil => rfl
  | append_singleton l s ih =>
    obtain ⟨hmem, hnd, _⟩ := keyOrder_spec l
    rw [buildCounts_concat, keyOrder_concat]
    by_cases hs : s = silentLabel
    · rw [if_pos hs, if_pos hs, ih]
      apply List.map_congr_left
      intro k hk
      have hks : ¬ s = k := fun h => ((hmem k).mp hk).2 (h ▸ hs)
      rw [List.count_append, List.count_singleton, if_neg (by simpa using hks), add_zero]
    · rw [if_neg hs, if_neg hs, ih]
      by_cases hsk : s ∈ keyOrder l
      · rw [bump_map_of_mem _ _ _ hnd hsk, if_pos hsk]
        apply List.map_congr_left
        intro k hk
        by_cases hks : k = s
        · subst hks
          rw [if_pos rfl, List.count_append, List.count_singleton, if_pos (by simp)]
        · rw [if_neg hks, List.count_append, List.count_singleton,
            if_neg (by simpa using fun h => hks h.symm), add_zero]
      · rw [bump_map_of_not_mem _ _ _ hsk, if_neg hsk, List.map_append]
        congr 1
        · apply List.map_congr_left
          intro k hk
          have hks : ¬ s = k := fun h => hsk (h ▸ hk)
          rw [List.count_append, List.count_singleton, if_neg (by simpa using hks), add_zero]
        · have hsl : s ∉ l := fun h => hsk ((hmem s).mpr ⟨h, hs⟩)
          simp only [List.map_cons, List.map_nil]
          rw [List.count_append, List.count_singleton, if_pos (by simp),
            List.count_eq_zero.mpr hsl]

theorem pickEntryGo_max :
    ∀ (t : List (String × ℕ)) (b : String × ℕ),
      b.2 ≤ (pickEntryGo b t).2 ∧ ∀ e ∈ t, e.2 ≤ (pickEntryGo b t).2 := by
  intro t
  induction t with
  | nil => intro b; exact ⟨le_refl _, by simp⟩
  | cons a t ih =>
    intro b
    by_cases hc : b.2 < a.2
    · rw [pickEntryGo, if_pos hc]
      refine ⟨le_trans (le_of_lt hc) (ih a).1, ?_⟩
      intro e he
      rcases List.mem_cons.mp he with he | he
      · exact he ▸ (ih a).1
      · exact (ih a).2 e he
    · rw [pickEntryGo, if_neg hc]
      refine ⟨(ih b).1, ?_⟩
      intro e he
      rcases List.mem_cons.mp he with he | he
      · exact he ▸ le_trans (le_of_not_lt hc) (ih b).1
      · exact (ih b).2 e he

theorem pickEntryGo_split :
    ∀ (t : List (String × ℕ)) (b : String × ℕ),
      pickEntryGo b t = b ∨
      ∃ l1 l2, t = l1 ++ pickEntryGo b t :: l2 ∧ b.2 < (pickEntryGo b t).2 ∧
        ∀ x ∈ l1, x.2 < (pickEntryGo b t).2 := by
  intro t
  induction t with
  | nil => intro b; exact Or.inl rfl
  | cons a t ih =>
    intro b
    by_cases hc : b.2 < a.2
    · rw [pickEntryGo, if_pos hc]
      rcases ih a with h | ⟨l1, l2, heq, hlt, hall⟩
      · exact Or.inr ⟨[], t, by rw [h, List.nil_append], by rw [h]; exact hc, by simp⟩
      · refine Or.inr ⟨a :: l1, l2, by rw [List.cons_append, ← heq], lt_trans hc hlt, ?_⟩
        intro x hx
        rcases List.mem_cons.mp hx with hx | hx
        · exact hx ▸ hlt
        · exact hall x hx
    · rw [pickEntryGo, if_neg hc]
      rcases ih b with h | ⟨l1, l2, heq, hlt, hall⟩
      · exact Or.inl h
      · refine Or.inr ⟨a :: l1, l2, by rw [List.cons_append, ← heq], hlt, ?_⟩
        intro x hx
        rcases List.mem_cons.mp hx with hx | hx
        · exact hx ▸ lt_of_le_of_lt (le_of_not_lt hc) hlt
        · exact hall x hx

theorem pickFirstMaxEntry_spec (cs : List (String × ℕ)) (w : String × ℕ)
    (h : pickFirstMaxEntry cs = some w) :
    ∃ l1 l2, cs = l1 ++ w :: l2 ∧ (∀ x ∈ l1, x.2 < w.2) ∧ ∀ x ∈ cs, x.2 ≤ w.2 := by
  cases cs with
  | nil => simp [pickFirstMaxEntry] at h
  | cons e t =>
    rw [pickFirstMaxEntry, Option.some_inj] at h
    subst h
    have hmax := pickEntryGo_max t e
    have hmall : ∀ x ∈ e :: t, x.2 ≤ (pickEntryGo e t).2 := by
      intro x hx
      rcases List.mem_cons.mp hx with hx | hx
      · exact hx ▸ hmax.1
      · exact hmax.2 x hx
    rcases pickEntryGo_split t e with h | ⟨l1, l2, heq, hlt, hall⟩
    · exact ⟨[], t, by rw [h, List.nil_append], by simp, hmall⟩
    · refine ⟨e :: l1, l2, by rw [List.cons_append, ← heq], ?_, hmall⟩
      intro x hx
      rcases List.mem_cons.mp hx with hx | hx
      · exact hx ▸ hlt
      · exact hall x hx

/-- Claim C8 (amended): for an empty note history, or one whose entries are
all the silent sentinel, `analyze_note_stability` returns the sentinel record
(not stable, no dominant note, score 0).  Otherwise the dominant note is a
non-silent label of the history attaining the maximal occurrence count —
the first such label in order of first appearance — and the returned record
carries: `stable` comparing the UNROUNDED score
`dominanceRatio * (1 - min(std/mean, 1))` (0 when no strictly positive
frequency is paired with the dominant label) against 0.7, while the returned
`stability_score` and `dominance_ratio` fields are those quantities rounded
to 2 decimals, and `note_distribution` the insertion-ordered counts.  The
original claim stated the returned score unrounded. -/
theorem C8_amended (notes : List String) (freqs : List ℝ) :
    ((notes = [] ∨ ∀ n ∈ notes, n = silentLabel) →
      analyze_note_stability notes freqs =
        { stable := false, dominant_note := none, stability_score := 0 }) ∧
    ((∃ n ∈ notes, n ≠ silentLabel) →
      ∃ d, d ∈ notes ∧ d ≠ silentLabel ∧
        (∀ l ∈ notes, l ≠ silentLabel → notes.count l ≤ notes.count d) ∧
        (∀ l ∈ notes, l ≠ silentLabel → notes.count l = notes.count d →
          notes.indexOf d ≤ notes.indexOf l) ∧
        analyze_note_stability notes freqs =
          { stable := decide ((0.7 : ℝ) <
              stabScore notes freqs d (notes.count d)),
            dominant_note := some d,
            stability_score := round2 (stabScore notes freqs d (notes.count d)),
            dominance_ratio := some (round2 ((notes.count d : ℝ) / notes.length)),
            note_distribution := some (buildCounts notes) }) := by
  obtain ⟨hmem, hnd, hpw⟩ := keyOrder_spec notes
  constructor
  · intro h
    rcases h with rfl | hall
    · rfl
    · by_cases hn : notes = []
      · subst hn; rfl
      · have hko : keyOrder notes = [] := by
          rw [List.eq_nil_iff_forall_not_mem]
          intro k hk
          exact ((hmem k).mp hk).2 (hall k ((hmem k).mp hk).1)
        have hbc : buildCounts notes = [] := by
          rw [buildCounts_eq, hko]
          rfl
        rw [analyze_note_stability, if_neg hn, hbc]
        rfl
  · rintro ⟨n, hn, hne⟩
    have hnotes : notes ≠ [] := by rintro rfl; simp at hn
    have hnko : n ∈ keyOrder notes := (hmem n).mpr ⟨hn, hne⟩
    obtain ⟨w, hw⟩ : ∃ w, pickFirstMaxEntry (buildCounts notes) = some w := by
      cases hcs : buildCounts notes with
      | nil =>
        rw [buildCounts_eq] at hcs
        rw [List.map_eq_nil_iff.mp hcs] at hnko
        simp at hnko
      | cons e t => exact ⟨pickEntryGo e t, rfl⟩
    obtain ⟨l1, l2, hsplit, hstrict, hle⟩ := pickFirstMaxEntry_spec _ _ hw
    have hwmem : w ∈ buildCounts notes := by
      rw [hsplit]
      exact List.mem_append_right _ (List.mem_cons_self _ _)
    obtain ⟨k, hk, hkw⟩ := List.mem_map.mp (by rw [buildCounts_eq] at hwmem; exact hwmem)
    have hc1 : w.1 = k := by rw [← hkw]
    have hc2 : w.2 = notes.count w.1 := by rw [← hkw]
    have hdmem : w.1 ∈ notes := hc1 ▸ ((hmem k).mp hk).1
    have hdsil : w.1 ≠ silentLabel := hc1 ▸ ((hmem k).mp hk).2
    have hmax2 : ∀ l ∈ notes, l ≠ silentLabel → notes.count l ≤ notes.count w.1 := by
      intro l hl hlne
      have hlk : l ∈ keyOrder notes := (hmem l).mpr ⟨hl, hlne⟩
      have hin : (l, notes.count l) ∈ buildCounts notes := by
        rw [buildCounts_eq]
        exact List.mem_map.mpr ⟨l, hlk, rfl⟩
      have hle2 : notes.count l ≤ w.2 := hle _ hin
      rw [hc2] at hle2
      exact hle2
    have hmap : (keyOrder notes).map (fun k => (k, notes.count k)) = l1 ++ w :: l2 := by
      rw [← buildCounts_eq]
      exact hsplit
    obtain ⟨k1, kr, hko, hmk1, hmkr⟩ := List.map_eq_append_iff.mp hmap
    cases kr with
    | nil => simp at hmkr
    | cons d2 k2 =>
      rw [List.map_cons] at hmkr
      injection hmkr with hd2 hl2
      have hd21 : d2 = w.1 := congrArg Prod.fst hd2
      have hfirst : ∀ l ∈ notes, l ≠ silentLabel → notes.count l = notes.count w.1 →
          notes.indexOf w.1 ≤ notes.indexOf l := by
        intro l hl hlne hcnt
        by_cases hld : l = w.1
        · rw [hld]
        · have hlk : l ∈ keyOrder notes := (hmem l).mpr ⟨hl, hlne⟩
          have hin : (l, notes.count l) ∈ l1 ++ w :: l2 := by
            rw [← hsplit, buildCounts_eq]
            exact List.mem_map.mpr ⟨l, hlk, rfl⟩
          rcases List.mem_append.mp hin with h1 | h2
          · have hlt : notes.count l < w.2 := hstrict _ h1
            rw [hcnt, ← hc2] at hlt
            exact absurd hlt (lt_irrefl _)
          · rcases List.mem_cons.mp h2 with h2 | h2
            · exact absurd (congrArg Prod.fst h2) hld
            · rw [← hl2] at h2
              obtain ⟨m, hm, hml⟩ := List.mem_map.mp h2
              have hml1 : m = l := congrArg Prod.fst hml
              subst hml1
              have hsub : (d2 :: k2).Sublist (keyOrder notes) := by
                rw [hko]
                exact List.sublist_append_right _ _
              have hpw2 := hpw.sublist hsub
              have hlt := (List.pairwise_cons.mp hpw2).1 m hm
              rw [hd21] at hlt
              exact le_of_lt hlt
      refine ⟨w.1, hdmem, hdsil, hmax2, hfirst, ?_⟩
      rw [analyze_note_stability, if_neg hnotes, hw]
      dsimp only
      rw [hc2]

/-- Claim C8 counterexample: on note history `["A", "A"]` with frequencies
`[1, 2]` the claimed value `dominanceRatio * (1 - min(std/mean, 1))` is
exactly `2/3`, but the returned `stability_score` field is `0.67`: the code
rounds the returned score to 2 decimals (note_detector.py line 266), which
the original claim omits. -/
theorem C8_counterexample :
    (analyze_note_stability ["A", "A"] [1, 2]).stability_score = 67 / 100 ∧
    ((2 : ℝ) / 2) * (1 - min (lstd [1, 2] / lmean [1, 2]) 1) = 2 / 3 ∧
    (67 / 100 : ℝ) ≠ 2 / 3 := by
  have hmean : lmean [1, 2] = 3 / 2 := by
    rw [lmean]
    norm_num [List.sum_cons, List.sum_nil, List.length_cons]
  have hstd : lstd [1, 2] = 1 / 2 := by
    rw [lstd, hmean]
    rw [show ((([(1 : ℝ), 2]).map (fun x => (x - 3 / 2) ^ 2)).sum /
        (([(1 : ℝ), 2]).length : ℝ)) = (1 / 2) ^ 2 from by
      norm_num [List.map_cons, List.map_nil, List.sum_cons, List.sum_nil,
        List.length_cons]]
    exact Real.sqrt_sq (by norm_num)
  have hmin : min ((1 / 2 : ℝ) / (3 / 2)) 1 = 1 / 3 := by
    rw [show ((1 / 2 : ℝ) / (3 / 2)) = 1 / 3 from by norm_num]
    exact min_eq_left (by norm_num)
  have hbc : buildCounts ["A", "A"] = [("A", 2)] := by decide
  have hpick : pickFirstMaxEntry (buildCounts ["A", "A"]) = some ("A", 2) := by
    rw [hbc]
    rfl
  have hdf : dominantFreqs ["A", "A"] [1, 2] "A" = [1, 2] := by
    rw [dominantFreqs]
    norm_num [List.zip_cons_cons, List.zip_nil_right, List.filter_cons,
      List.filter_nil, List.map_cons, List.map_nil]
  have hscore : stabScore ["A", "A"] [1, 2] "A" 2 = 2 / 3 := by
    rw [stabScore, hdf, if_neg (by simp), hstd, hmean, hmin]
    norm_num [List.length_cons]
  have hfloor : round ((200 : ℝ) / 3) = 67 := by
    rw [round_eq, Int.floor_eq_iff]
    norm_num
  have hround : round2 ((2 : ℝ) / 3) = 67 / 100 := by
    rw [round2, show (100 : ℝ) * (2 / 3) = 200 / 3 from by norm_num, hfloor]
    norm_num
  refine ⟨?_, ?_, by norm_num⟩
  · rw [analyze_note_stability, if_neg (by simp), hpick]
    dsimp only
    rw [hscore, hround]
  · rw [hstd, hmean, hmin]
    norm_num

/-- Witness for C8 (amended) at the history `["B"]` with the single
(nonpositive) frequency `0`: the dominant note is `B` with count 1,
no positive dominant frequency exists so the score is 0, and the
returned ratio is 1. -/
theorem C8_witness :
    analyze_note_stability ["B"] [0] =
      { stable := false, dominant_note := some "B", stability_score := 0,
        dominance_ratio := some 1, note_distribution := some [("B", 1)] } := by
  obtain ⟨d, hd, -, -, -, heq⟩ :=
    (C8_amended ["B"] [0]).2 ⟨"B", by simp, by decide⟩
  have hdB : d = "B" := by simpa using hd
  subst hdB
  rw [heq]
  have hcnt : (["B"] : List String).count "B" = 1 := by decide
  have hdf0 : dominantFreqs ["B"] [0] "B" = [] := by
    rw [dominantFreqs]
    norm_num [List.zip_cons_cons, List.zip_nil_right, List.filter_cons,
      List.filter_nil, List.map_nil]
  have hr0 : round2 (0 : ℝ) = 0 := by
    rw [round2, mul_zero, round_zero]
    norm_num
  have hr1 : round2 (1 : ℝ) = 1 := by
    rw [round2, mul_one, show (100 : ℝ) = ((100 : ℤ) : ℝ) from by norm_num,
      round_intCast]
    norm_num
  rw [hcnt]
  have hs0 : stabScore ["B"] [0] "B" 1 = 0 := by
    rw [stabScore, if_pos hdf0]
  rw [hs0, decide_eq_false (by norm_num : ¬ ((0.7 : ℝ) < 0)), hr0]
  have hlen : (((["B"] : List String).length : ℕ) : ℝ) = 1 := by
    norm_num
  rw [hlen, Nat.cast_one, div_one, hr1,
    show buildCounts ["B"] = [("B", 1)] from by decide]
